import Mathlib

/-!
Shallow embedding of the YXT Manual T0 Collaboration core
(`src/position_calc.py`, `src/t0_strategy.py`, `src/risk_check.py`).

Conventions of the embedding:
* Python `float` prices and ratios are modelled as exact rationals `ℚ`;
  Python `int` volumes are modelled as `Int`.
* Python dicts are modelled as association lists `List (String × _)`;
  insertion creates a new entry at the end, updates modify in place,
  matching dict iteration order.
* Optional dict entries read with `dict.get(k, default)` are modelled as
  `Option` fields read with `getD`.
* Numeric string formatting inside human-readable messages (`:.2f`, `*100`)
  is abstracted to `toString` of the exact value; no claim depends on the
  message text.
-/

namespace YXT

/-- A trade record (`trades` list entries of `PositionCalculator`).
`strategy` and `direction` are optional dict keys read with
`trade.get('strategy', 'DEFAULT')` / `trade.get('direction', 'BUY')`.
A `volume` / `price` / `trade_time` missing from the dict is identified
with its default value `0` / `0` / `""`. -/
structure Trade where
  stock_code : String
  account_id : String
  strategy : Option String
  direction : Option String
  volume : Int
  price : ℚ
  trade_time : String
deriving Repr, DecidableEq

/-- A parsed DBF order (`DBFOrder`, restricted to the fields the position
ledger reads: `stock_code`, `account_id`, `strategy`, `volume`,
`price_type`, `order_type`). `volume` is a numeric string, as in the
source. -/
structure Order where
  order_type : String
  price_type : String
  stock_code : String
  volume : String
  account_id : String
  strategy : Option String
deriving Repr, DecidableEq

/-- The `Position` dataclass of `position_calc.py` with its field defaults. -/
structure Position where
  stock_code : String
  account_id : String
  strategy : String
  total_volume : Int := 0
  available_volume : Int := 0
  frozen_volume : Int := 0
  buy_volume : Int := 0
  sell_volume : Int := 0
  avg_cost : ℚ := 0
  current_price : ℚ := 0
  market_value : ℚ := 0
  profit_loss : ℚ := 0
  profit_loss_ratio : ℚ := 0
deriving Repr, DecidableEq

/-- The `T0Position` dataclass of `position_calc.py` with its field defaults. -/
structure T0Position where
  stock_code : String
  account_id : String
  strategy : String
  base_volume : Int := 0
  t0_buy_volume : Int := 0
  t0_sell_volume : Int := 0
  t0_completed : Int := 0
  t0_pending : Int := 0
  t0_profit : ℚ := 0
  avg_buy_price : ℚ := 0
  avg_sell_price : ℚ := 0
deriving Repr, DecidableEq

/-- Python `prices.get(stock_code, 0)` / `prices[stock_code]` on the price
dict, modelled over an association list. -/
def lookupPrice (prices : List (String × ℚ)) (stock : String) : Option ℚ :=
  prices.lookup stock

/-- Composite position key `f"{stock_code}_{account_id}_{strategy}"`
(`PositionCalculator._make_position_key`). -/
def mkKey (stock_code account_id strategy : String) : String :=
  stock_code ++ "_" ++ account_id ++ "_" ++ strategy

/-- `trade.get('strategy', 'DEFAULT')`. -/
def tradeStrategy (t : Trade) : String := t.strategy.getD "DEFAULT"

/-- `trade.get('direction', 'BUY')`. -/
def tradeDirection (t : Trade) : String := t.direction.getD "BUY"

/-- The composite key a trade is booked under. -/
def tradeKey (t : Trade) : String :=
  mkKey t.stock_code t.account_id (tradeStrategy t)

/-- A fresh `Position(stock_code=…, account_id=…, strategy=…)` with the
dataclass defaults. -/
def mkPosition (stock_code account_id strategy : String) : Position :=
  { stock_code := stock_code, account_id := account_id, strategy := strategy }

/-- Python `max(a, b)` on integers, written as an executable conditional
(Mathlib's lattice `max` does not reduce inside the kernel). -/
def pymax (a b : Int) : Int := if a < b then b else a

/-- Python `min(a, b)` on integers, written as an executable conditional. -/
def pymin (a b : Int) : Int := if a ≤ b then a else b

/-- Python `abs(a)` on integers, written as an executable conditional. -/
def pyabs (a : Int) : Int := if a < 0 then -a else a

/-- One step of `PositionCalculator._calculate_from_trades`: apply a single
trade to the position stored under its key. BUY increases the holding and
re-derives the average cost; SELL decreases the holding, floored at zero;
afterwards `current_price` is refreshed from the price map when present. -/
def applyTradeDir (p : Position) (t : Trade) : Position :=
  if tradeDirection t = "BUY" then
    { p with
      total_volume := p.total_volume + t.volume
      avg_cost :=
        if 0 < p.total_volume + t.volume then
          (p.avg_cost * (p.total_volume : ℚ) + t.price * (t.volume : ℚ))
            / ((p.total_volume + t.volume : Int) : ℚ)
        else 0 }
  else if tradeDirection t = "SELL" then
    { p with total_volume := pymax 0 (p.total_volume - t.volume) }
  else p

/-- The price refresh at the end of the trades-fold body:
`if trade['stock_code'] in self.prices: pos.current_price = ...`. -/
def applyTradePrice (prices : List (String × ℚ)) (p : Position) (t : Trade) :
    Position :=
  match lookupPrice prices t.stock_code with
  | some pr => { p with current_price := pr }
  | none => p

def applyTrade (prices : List (String × ℚ)) (p : Position) (t : Trade) : Position :=
  applyTradePrice prices (applyTradeDir p t) t

/-- Dict upsert, the shared idiom of all the folding passes: when `key` is
present, modify the stored value in place; otherwise append `f init` as a
new entry at the end (`if key not in d: d[key] = init` followed by the
in-place mutation). -/
def upsert {β : Type} (m : List (String × β)) (key : String)
    (f : β → β) (init : β) : List (String × β) :=
  if (m.lookup key).isSome then
    m.map fun e => if e.1 = key then (e.1, f e.2) else e
  else
    m ++ [(key, f init)]

/-- The positions-dict upsert of the two folding passes of `calculate`. -/
def setPos (m : List (String × Position)) (key : String)
    (f : Position → Position) (init : Position) : List (String × Position) :=
  upsert m key f init

/-- `PositionCalculator._calculate_from_trades`: fold every trade into the
positions dict. -/
def foldTrades (prices : List (String × ℚ)) (m : List (String × Position))
    (trades : List Trade) : List (String × Position) :=
  trades.foldl
    (fun m t =>
      setPos m (tradeKey t) (fun p => applyTrade prices p t)
        (mkPosition t.stock_code t.account_id (tradeStrategy t)))
    m

/-- Python `order.strategy or 'DEFAULT'`: `None` and the empty string both
fall back to `'DEFAULT'`. -/
def orderStrategy (o : Order) : String :=
  match o.strategy with
  | none => "DEFAULT"
  | some s => if s = "" then "DEFAULT" else s

/-- The composite key an order is booked under. -/
def orderKey (o : Order) : String :=
  mkKey o.stock_code o.account_id (orderStrategy o)

/-- `PositionCalculator._get_order_direction`: decide by `price_type`;
unknown codes default to `'BUY'`. -/
def orderDirection (o : Order) : String :=
  if o.price_type = "18" ∨ o.price_type = "1" ∨ o.price_type = "BUY" then "BUY"
  else if o.price_type = "19" ∨ o.price_type = "2" ∨ o.price_type = "SELL" then "SELL"
  else "BUY"

/-- `int(order.volume) if order.volume.isdigit() else 0`: a non-numeric
volume string degrades to `0`. The decimal conversion is written as an
explicit fold over the characters so that it evaluates inside the
kernel. -/
def parseVolume (s : String) : Int :=
  if s ≠ "" ∧ s.toList.all Char.isDigit then
    ((s.toList.foldl (fun n c => 10 * n + (c.toNat - 48)) 0 : Nat) : Int)
  else 0

/-- One step of `PositionCalculator._calculate_frozen_from_orders`: a BUY
order adds to `buy_volume` and `frozen_volume`, a SELL order adds to
`sell_volume` and `frozen_volume`. -/
def applyOrder (p : Position) (o : Order) : Position :=
  let v := parseVolume o.volume
  if orderDirection o = "BUY" then
    { p with buy_volume := p.buy_volume + v, frozen_volume := p.frozen_volume + v }
  else if orderDirection o = "SELL" then
    { p with sell_volume := p.sell_volume + v, frozen_volume := p.frozen_volume + v }
  else p

/-- `PositionCalculator._calculate_frozen_from_orders`: fold every order
into the positions dict. -/
def foldOrders (m : List (String × Position)) (orders : List Order) :
    List (String × Position) :=
  orders.foldl
    (fun m o =>
      setPos m (orderKey o) (fun p => applyOrder p o)
        (mkPosition o.stock_code o.account_id (orderStrategy o)))
    m

/-- `PositionCalculator._calculate_market_value_and_pl` applied to one
position: derive `market_value`, the guarded `profit_loss` /
`profit_loss_ratio`, and `available_volume = max(0, total - frozen)`. -/
def finalizeMV (p : Position) : Position :=
  { p with market_value := (p.total_volume : ℚ) * p.current_price }

/-- The guarded profit/loss derivation of
`_calculate_market_value_and_pl`. -/
def finalizePL (p : Position) : Position :=
  if 0 < p.total_volume ∧ 0 < p.avg_cost then
    { p with
      profit_loss := (p.current_price - p.avg_cost) * (p.total_volume : ℚ)
      profit_loss_ratio := (p.current_price - p.avg_cost) / p.avg_cost }
  else p

/-- `available_volume = max(0, total_volume - frozen_volume)`. -/
def finalizeAvailable (p : Position) : Position :=
  { p with available_volume := pymax 0 (p.total_volume - p.frozen_volume) }

def finalizePos (p : Position) : Position :=
  finalizeAvailable (finalizePL (finalizeMV p))

/-- `PositionCalculator.calculate`: fold trades, then orders, then derive
market value, profit/loss and available volume for every position. -/
def calculate (trades : List Trade) (orders : List Order)
    (prices : List (String × ℚ)) : List (String × Position) :=
  (foldOrders (foldTrades prices [] trades) orders).map
    fun e => (e.1, finalizePos e.2)

/-! ### T0 matcher (`PositionCalculator.calculate_t0`, `_match_t0_trades`) -/

/-- A remaining (volume, price) lot in the T0 matcher
(the `{'volume': …, 'price': …}` dict of `calculate_t0`). -/
structure Lot where
  volume : Int
  price : ℚ
deriving Repr, DecidableEq

/-- Sum of lot volumes. -/
def lotSum : List Lot → Int
  | [] => 0
  | x :: xs => x.volume + lotSum xs

/-- The `while` loop of `PositionCalculator._match_t0_trades`, written with
an explicit step bound. Every iteration with a positive match volume
empties at least one head lot (the match volume is the minimum of the two
heads), so `buys.length + sells.length` bounds the number of iterations;
`matchT0` supplies exactly that fuel. A non-positive match volume hits the
`break`. -/
def matchT0Go : Nat → List Lot → List Lot → Int × ℚ
  | 0, _, _ => (0, 0)
  | _ + 1, [], _ => (0, 0)
  | _ + 1, _, [] => (0, 0)
  | fuel + 1, b :: bs, s :: ss =>
    let m := pymin b.volume s.volume
    if 0 < m then
      let bs1 := if b.volume - m = 0 then bs else { b with volume := b.volume - m } :: bs
      let ss1 := if s.volume - m = 0 then ss else { s with volume := s.volume - m } :: ss
      let r := matchT0Go fuel bs1 ss1
      (m + r.1, (s.price - b.price) * (m : ℚ) + r.2)
    else (0, 0)

/-- `PositionCalculator._match_t0_trades`: returns the total matched volume
and the realized profit `Σ (sell_price − buy_price) × matched`. -/
def matchT0 (buys sells : List Lot) : Int × ℚ :=
  matchT0Go (buys.length + sells.length) buys sells

/-- Append-based dict upsert used to build `trade_groups`
(`defaultdict(list)` + `append`). -/
def addToGroup (gs : List (String × List Trade)) (key : String) (t : Trade) :
    List (String × List Trade) :=
  upsert gs key (· ++ [t]) []

/-- `trade_groups`: group the trades by composite key, preserving arrival
order inside each group. -/
def buildGroups (trades : List Trade) : List (String × List Trade) :=
  trades.foldl (fun gs t => addToGroup gs (tradeKey t) t) []

/-- Code-point-wise lexicographic order on character lists: the order
Python uses when comparing the `trade_time` strings. -/
def charListLt : List Char → List Char → Bool
  | _, [] => false
  | [], _ :: _ => true
  | a :: as, b :: bs =>
    if a.toNat < b.toNat then true
    else if b.toNat < a.toNat then false
    else charListLt as bs

/-- Lexicographic `<` on strings by Unicode code point, Python's string
comparison. -/
def strLt (s t : String) : Bool :=
  charListLt s.toList t.toList

/-- Stable insertion of a trade into a list sorted ascending by
`trade_time`: the new element goes before the first strictly later one,
i.e. after every earlier-or-equal one, matching Python's stable
`list.sort(key=lambda x: x.get('trade_time', ''))`. -/
def insertByTime (t : Trade) : List Trade → List Trade
  | [] => [t]
  | u :: us =>
    if strLt u.trade_time t.trade_time then u :: insertByTime t us
    else t :: u :: us

/-- Stable sort of a trade group by `trade_time`. -/
def sortByTime (ts : List Trade) : List Trade :=
  ts.foldr insertByTime []

/-- The per-group accumulation loop of `calculate_t0`: build the buy and
sell lot lists and the total buy / sell volumes. Trades whose direction is
neither `BUY` nor `SELL` are skipped. -/
def collectLots (ts : List Trade) :
    List Lot × List Lot × Int × Int :=
  ts.foldl
    (fun acc t =>
      if tradeDirection t = "BUY" then
        (acc.1 ++ [⟨t.volume, t.price⟩], acc.2.1, acc.2.2.1 + t.volume, acc.2.2.2)
      else if tradeDirection t = "SELL" then
        (acc.1, acc.2.1 ++ [⟨t.volume, t.price⟩], acc.2.2.1, acc.2.2.2 + t.volume)
      else acc)
    ([], [], 0, 0)

/-- The body of `calculate_t0` for one already-sorted trade group: collect
the lots, run the matcher, and fill a `T0Position` whose identity fields
come from the first trade of the group
(`t0_pending = abs(t0_buy_volume - t0_sell_volume)`). -/
def mkT0 (sorted : List Trade) : T0Position :=
  { stock_code := (sorted.head?.map (·.stock_code)).getD ""
    account_id := (sorted.head?.map (·.account_id)).getD ""
    strategy := (sorted.head?.map tradeStrategy).getD "DEFAULT"
    t0_buy_volume := (collectLots sorted).2.2.1
    t0_sell_volume := (collectLots sorted).2.2.2
    t0_completed := (matchT0 (collectLots sorted).1 (collectLots sorted).2.1).1
    t0_profit := (matchT0 (collectLots sorted).1 (collectLots sorted).2.1).2
    t0_pending := pyabs ((collectLots sorted).2.2.1 - (collectLots sorted).2.2.2) }

/-- The body of `calculate_t0` for one trade group: sort by time, then
compute the group's `T0Position`. -/
def computeT0 (ts : List Trade) : T0Position :=
  mkT0 (sortByTime ts)

/-- `PositionCalculator.calculate_t0`: group the trades by composite key
and compute one `T0Position` per group. The method reads only the trades;
orders play no part. -/
def calculateT0 (trades : List Trade) : List (String × T0Position) :=
  (buildGroups trades).map fun e => (e.1, computeT0 e.2)

/-! ### Risk evaluator (`risk_check.py`) -/

/-- The merged `RiskChecker.params` (defaults `DEFAULT_RISK_PARAMS`,
overridable at construction). -/
structure RiskParams where
  max_total_position : ℚ := 10000000
  max_single_stock_ratio : ℚ := 1/5
  max_t0_trades_per_day : Int := 10
  stop_loss_ratio : ℚ := -(1/20)
  take_profit_ratio : ℚ := 1/10
deriving Repr, DecidableEq

/-- The `RiskAlert` dataclass. -/
structure RiskAlert where
  level : String
  code : String
  message : String
  stock_code : Option String := none
  account_id : Option String := none
  current_value : Option ℚ := none
  limit_value : Option ℚ := none
deriving Repr, DecidableEq

/-- Total market value `sum(p.market_value for p in positions.values())`. -/
def totalMarketValue (positions : List Position) : ℚ :=
  (positions.map (·.market_value)).sum

/-- `RiskChecker._check_total_position`: strict `>` against the limit for
ERROR, else strict `>` against `0.8 ×` the limit for WARNING. -/
def checkTotalPosition (params : RiskParams) (positions : List Position) :
    List RiskAlert :=
  if params.max_total_position < totalMarketValue positions then
    [{ level := "ERROR", code := "RISK_TOTAL_POSITION_EXCEEDED"
       message := "总仓位超限：" ++ toString (totalMarketValue positions)
         ++ " > " ++ toString params.max_total_position
       current_value := some (totalMarketValue positions)
       limit_value := some params.max_total_position }]
  else if params.max_total_position * (8/10) < totalMarketValue positions then
    [{ level := "WARNING", code := "RISK_TOTAL_POSITION_HIGH"
       message := "总仓位较高：" ++ toString (totalMarketValue positions)
         ++ " / " ++ toString params.max_total_position
         ++ " (" ++ toString (totalMarketValue positions
              / params.max_total_position * 100) ++ "%)"
       current_value := some (totalMarketValue positions)
       limit_value := some params.max_total_position }]
  else []

/-- Accumulation of market value by stock code (`stock_values` in
`_check_concentration`: `if not in: = 0` then `+=`). -/
def addStockValue (sv : List (String × ℚ)) (stock : String) (v : ℚ) :
    List (String × ℚ) :=
  upsert sv stock (· + v) 0

/-- Per-stock aggregate market values, in first-encounter order. -/
def stockValues (positions : List Position) : List (String × ℚ) :=
  positions.foldl (fun sv p => addStockValue sv p.stock_code p.market_value) []

/-- The per-stock alerts of `_check_concentration`: one ERROR when the
share strictly exceeds the ratio limit, nothing otherwise. -/
def concAlert (params : RiskParams) (total : ℚ) (e : String × ℚ) :
    List RiskAlert :=
  if params.max_single_stock_ratio < e.2 / total then
    [{ level := "ERROR", code := "RISK_CONCENTRATION_EXCEEDED"
       message := "单票" ++ e.1 ++ "集中度过高：" ++ toString (e.2 / total * 100)
         ++ "% > " ++ toString (params.max_single_stock_ratio * 100) ++ "%"
       stock_code := some e.1
       current_value := some (e.2 / total)
       limit_value := some params.max_single_stock_ratio }]
  else []

/-- `RiskChecker._check_concentration`: skip entirely when the total is
zero, else the per-stock alerts in grouping order. -/
def checkConcentration (params : RiskParams) (positions : List Position) :
    List RiskAlert :=
  if totalMarketValue positions = 0 then []
  else
    (stockValues positions).foldr
      (fun e acc => concAlert params (totalMarketValue positions) e ++ acc) []

/-- The per-position alerts of `_check_profit_loss`: WARNING below the
stop-loss line, INFO above the take-profit line. -/
def plAlert (params : RiskParams) (p : Position) : List RiskAlert :=
  if p.profit_loss_ratio < params.stop_loss_ratio then
    [{ level := "WARNING", code := "RISK_STOP_LOSS"
       message := p.stock_code ++ " 触及止损线：" ++ toString (p.profit_loss_ratio * 100)
         ++ "% < " ++ toString (params.stop_loss_ratio * 100) ++ "%"
       stock_code := some p.stock_code, account_id := some p.account_id
       current_value := some p.profit_loss_ratio
       limit_value := some params.stop_loss_ratio }]
  else if params.take_profit_ratio < p.profit_loss_ratio then
    [{ level := "INFO", code := "RISK_TAKE_PROFIT"
       message := p.stock_code ++ " 触及止盈线：" ++ toString (p.profit_loss_ratio * 100)
         ++ "% > " ++ toString (params.take_profit_ratio * 100) ++ "%"
       stock_code := some p.stock_code, account_id := some p.account_id
       current_value := some p.profit_loss_ratio
       limit_value := some params.take_profit_ratio }]
  else []

/-- `RiskChecker._check_profit_loss` over all positions. -/
def checkProfitLoss (params : RiskParams) (positions : List Position) :
    List RiskAlert :=
  positions.foldr (fun p acc => plAlert params p ++ acc) []

/-- `RiskChecker.check`: the three checks run unconditionally, in order,
appending to one alert list. -/
def check (params : RiskParams) (positions : List Position) : List RiskAlert :=
  checkTotalPosition params positions
    ++ checkConcentration params positions
    ++ checkProfitLoss params positions

/-! ### Position summary (`PositionCalculator.get_summary`) -/

/-- The numeric part of the `get_summary` result dict. -/
structure Summary where
  total_positions : Nat
  total_market_value : ℚ
  total_profit_loss : ℚ
  profit_loss_ratio : ℚ
deriving Repr, DecidableEq

/-- `PositionCalculator.get_summary` on the positions dict: empty dict
short-circuits, otherwise the ratio division is guarded by
`total_market_value > 0`. -/
def getSummary (positions : List (String × Position)) : Summary :=
  if positions = [] then
    { total_positions := 0, total_market_value := 0
      total_profit_loss := 0, profit_loss_ratio := 0 }
  else
    { total_positions := positions.length
      total_market_value := ((positions.map (·.2)).map (·.market_value)).sum
      total_profit_loss := ((positions.map (·.2)).map (·.profit_loss)).sum
      profit_loss_ratio :=
        if 0 < ((positions.map (·.2)).map (·.market_value)).sum then
          ((positions.map (·.2)).map (·.profit_loss)).sum
            / ((positions.map (·.2)).map (·.market_value)).sum
        else 0 }

/-! ### Signal generator (`t0_strategy.py`) -/

/-- The merged `T0Strategy.params` (defaults `DEFAULT_PARAMS`,
overridable at construction). -/
structure T0Params where
  sell_premium : ℚ := 1/500
  buy_discount : ℚ := 1/500
  min_t0_volume : Int := 100
  max_t0_ratio : ℚ := 1/2
deriving Repr, DecidableEq

/-- The `T0Signal` dataclass. `created_at` records
`datetime.now().isoformat()` at emission time; the ambient clock value is
threaded through the embedding as an explicit `now` argument. -/
structure T0Signal where
  stock_code : String
  account_id : String
  strategy : String
  signal_type : String
  target_volume : Int
  target_price : ℚ
  reason : String
  priority : Int := 1
  created_at : String := ""
deriving Repr, DecidableEq

/-- `T0Strategy._generate_pending_signals`: one priority-2 signal pairing
off the pending volume — SELL at a premium when buys exceed sells,
otherwise BUY at a discount. -/
def mkPendingSignal (params : T0Params) (pos : T0Position)
    (current_price : ℚ) (now : String) : T0Signal :=
  if pos.t0_sell_volume < pos.t0_buy_volume then
    { stock_code := pos.stock_code, account_id := pos.account_id
      strategy := pos.strategy, signal_type := "SELL"
      target_volume := pos.t0_pending
      target_price := current_price * (1 + params.sell_premium)
      reason := "T0 待完成：买入" ++ toString pos.t0_buy_volume ++ " > 卖出"
        ++ toString pos.t0_sell_volume
      priority := 2, created_at := now }
  else
    { stock_code := pos.stock_code, account_id := pos.account_id
      strategy := pos.strategy, signal_type := "BUY"
      target_volume := pos.t0_pending
      target_price := current_price * (1 - params.buy_discount)
      reason := "T0 待完成：卖出" ++ toString pos.t0_sell_volume ++ " > 买入"
        ++ toString pos.t0_buy_volume
      priority := 2, created_at := now }

/-- Python `int(...)` truncation toward zero on a rational. -/
def ratToInt (q : ℚ) : Int :=
  if 0 ≤ q then ⌊q⌋ else ⌈q⌉

/-- `T0Strategy._generate_base_t0_signals`: the base-holding rotation rule,
priority 3, emitted only when the available-for-T0 volume and the capped
target both reach `min_t0_volume`. -/
def baseTarget (params : T0Params) (basePos : Position) (t0Pos : T0Position) : Int :=
  pymin (pymin (basePos.available_volume - t0Pos.t0_buy_volume)
        (ratToInt ((basePos.total_volume : ℚ) * params.max_t0_ratio))) 1000

def mkBaseSignals (params : T0Params) (basePos : Position) (t0Pos : T0Position)
    (current_price : ℚ) (now : String) : List T0Signal :=
  if params.min_t0_volume ≤ basePos.available_volume - t0Pos.t0_buy_volume then
    if params.min_t0_volume ≤ baseTarget params basePos t0Pos then
      [{ stock_code := basePos.stock_code, account_id := basePos.account_id
         strategy := basePos.strategy, signal_type := "SELL"
         target_volume := baseTarget params basePos t0Pos
         target_price := current_price * (1 + params.sell_premium)
         reason := "底仓做 T：可用"
           ++ toString (basePos.available_volume - t0Pos.t0_buy_volume)
           ++ "股，目标" ++ toString (baseTarget params basePos t0Pos) ++ "股"
         priority := 3, created_at := now }]
    else []
  else []

/-- The signals contributed by one entry of the `t0_positions` dict:
the pending-pairing rule, then (when a base positions dict was supplied
and holds the key) the base-holding rule. -/
def entrySignals (params : T0Params) (prices : List (String × ℚ))
    (positions : List (String × Position)) (now : String)
    (pos : T0Position) : List T0Signal :=
  (if 0 < pos.t0_pending then
    [mkPendingSignal params pos ((lookupPrice prices pos.stock_code).getD 0) now]
   else [])
    ++
  (if positions ≠ [] then
    match positions.lookup (mkKey pos.stock_code pos.account_id pos.strategy) with
    | some basePos =>
      mkBaseSignals params basePos pos ((lookupPrice prices pos.stock_code).getD 0) now
    | none => []
   else [])

/-- Stable insertion into a list sorted ascending by `priority`: the new
element goes before the first element with greater-or-equal priority of
the already-sorted suffix, which together with the `foldr` below
reproduces Python's stable `list.sort(key=lambda x: x.priority)`. -/
def insertByPriority (s : T0Signal) : List T0Signal → List T0Signal
  | [] => [s]
  | u :: us =>
    if u.priority < s.priority then u :: insertByPriority s us
    else s :: u :: us

/-- Stable sort of the signal list by ascending priority. -/
def sortByPriority (l : List T0Signal) : List T0Signal :=
  l.foldr insertByPriority []

/-- The unsorted `self.signals` list: per-entry signals concatenated in
dict iteration order. -/
def buildSignals (params : T0Params) (prices : List (String × ℚ))
    (positions : List (String × Position)) (now : String)
    (t0_positions : List (String × T0Position)) : List T0Signal :=
  t0_positions.foldr
    (fun e acc => entrySignals params prices positions now e.2 ++ acc) []

/-- `T0Strategy.generate_signals`: emit per-entry signals in dict order,
then stably sort by ascending priority. `now` is the ambient
`datetime.now().isoformat()` value at call time. -/
def generateSignals (params : T0Params) (t0_positions : List (String × T0Position))
    (prices : List (String × ℚ)) (positions : List (String × Position))
    (now : String) : List T0Signal :=
  sortByPriority (buildSignals params prices positions now t0_positions)

/-! ### Fault-tracking semantics for the divisions

`cdiv` is division instrumented to fail on a zero denominator. The
`…Checked` functions below repeat the source computations verbatim, with
every division the Python code performs routed through `cdiv`; a `none`
result would mean a `ZeroDivisionError`. Passes that perform no division
reuse the plain definitions. -/

/-- Division that faults (returns `none`) on a zero denominator. -/
def cdiv (a b : ℚ) : Option ℚ :=
  if b = 0 then none else some (a / b)

/-- Fault-propagating map over a list. -/
def mapOpt {α β : Type} (g : α → Option β) : List α → Option (List β)
  | [] => some []
  | x :: xs => do pure ((← g x) :: (← mapOpt g xs))

/-- Fault-propagating left fold over a list. -/
def foldlOpt {α β : Type} (g : β → α → Option β) (init : β) :
    List α → Option β
  | [] => some init
  | x :: xs => do foldlOpt g (← g init x) xs

/-- Fault-propagating right fold over a list. -/
def foldrOpt {α β : Type} (g : α → β → Option β) (init : β) :
    List α → Option β
  | [] => some init
  | x :: xs => do g x (← foldrOpt g init xs)

/-- `applyTradeDir` with the `avg_cost` division instrumented. -/
def applyTradeDirChecked (p : Position) (t : Trade) : Option Position :=
  if tradeDirection t = "BUY" then do
    let ac ←
      if 0 < p.total_volume + t.volume then
        cdiv (p.avg_cost * (p.total_volume : ℚ) + t.price * (t.volume : ℚ))
          ((p.total_volume + t.volume : Int) : ℚ)
      else some 0
    pure { p with total_volume := p.total_volume + t.volume, avg_cost := ac }
  else if tradeDirection t = "SELL" then
    pure { p with total_volume := pymax 0 (p.total_volume - t.volume) }
  else pure p

/-- `applyTrade` with the `avg_cost` division instrumented. -/
def applyTradeChecked (prices : List (String × ℚ)) (p : Position) (t : Trade) :
    Option Position := do
  let p1 ← applyTradeDirChecked p t
  pure (applyTradePrice prices p1 t)

/-- `setPos` with an instrumented update function. -/
def setPosChecked (m : List (String × Position)) (key : String)
    (f : Position → Option Position) (init : Position) :
    Option (List (String × Position)) :=
  if (m.lookup key).isSome then
    mapOpt (fun e => if e.1 = key then (f e.2).map ((e.1, ·)) else some e) m
  else do
    let v ← f init
    pure (m ++ [(key, v)])

/-- `foldTrades` with instrumented trade application. -/
def foldTradesChecked (prices : List (String × ℚ)) (m : List (String × Position))
    (trades : List Trade) : Option (List (String × Position)) :=
  foldlOpt
    (fun m t =>
      setPosChecked m (tradeKey t) (fun p => applyTradeChecked prices p t)
        (mkPosition t.stock_code t.account_id (tradeStrategy t)))
    m trades

/-- `finalizePL` with the `profit_loss_ratio` division instrumented. -/
def finalizePLChecked (p : Position) : Option Position :=
  if 0 < p.total_volume ∧ 0 < p.avg_cost then do
    let ratio ← cdiv (p.current_price - p.avg_cost) p.avg_cost
    pure { p with
           profit_loss := (p.current_price - p.avg_cost) * (p.total_volume : ℚ)
           profit_loss_ratio := ratio }
  else pure p

/-- `finalizePos` with the `profit_loss_ratio` division instrumented. -/
def finalizePosChecked (p : Position) : Option Position := do
  let p2 ← finalizePLChecked (finalizeMV p)
  pure (finalizeAvailable p2)

/-- `calculate` with every division it performs instrumented. The order
fold performs no division and is reused as is. -/
def calculateChecked (trades : List Trade) (orders : List Order)
    (prices : List (String × ℚ)) : Option (List (String × Position)) := do
  let m ← foldTradesChecked prices [] trades
  mapOpt (fun e => (finalizePosChecked e.2).map ((e.1, ·))) (foldOrders m orders)

/-- `getSummary` with the summary ratio division instrumented. -/
def getSummaryChecked (positions : List (String × Position)) : Option Summary :=
  if positions = [] then
    some { total_positions := 0, total_market_value := 0
           total_profit_loss := 0, profit_loss_ratio := 0 }
  else do
    let ratio ←
      if 0 < ((positions.map (·.2)).map (·.market_value)).sum then
        cdiv ((positions.map (·.2)).map (·.profit_loss)).sum
          ((positions.map (·.2)).map (·.market_value)).sum
      else some 0
    pure { total_positions := positions.length
           total_market_value := ((positions.map (·.2)).map (·.market_value)).sum
           total_profit_loss := ((positions.map (·.2)).map (·.profit_loss)).sum
           profit_loss_ratio := ratio }

/-- `checkTotalPosition` with the division inside the WARNING message
(`total_value / max_limit * 100`) instrumented. -/
def checkTotalPositionChecked (params : RiskParams) (positions : List Position) :
    Option (List RiskAlert) :=
  if params.max_total_position < totalMarketValue positions then
    some [{ level := "ERROR", code := "RISK_TOTAL_POSITION_EXCEEDED"
            message := "总仓位超限：" ++ toString (totalMarketValue positions)
              ++ " > " ++ toString params.max_total_position
            current_value := some (totalMarketValue positions)
            limit_value := some params.max_total_position }]
  else if params.max_total_position * (8/10) < totalMarketValue positions then do
    let pct ← cdiv (totalMarketValue positions) params.max_total_position
    pure [{ level := "WARNING", code := "RISK_TOTAL_POSITION_HIGH"
            message := "总仓位较高：" ++ toString (totalMarketValue positions)
              ++ " / " ++ toString params.max_total_position
              ++ " (" ++ toString (pct * 100) ++ "%)"
            current_value := some (totalMarketValue positions)
            limit_value := some params.max_total_position }]
  else some []

/-- `checkConcentration` with the concentration ratio division
instrumented. -/
def checkConcentrationChecked (params : RiskParams) (positions : List Position) :
    Option (List RiskAlert) :=
  if totalMarketValue positions = 0 then some []
  else
    foldrOpt
      (fun e acc => do
        let ratio ← cdiv e.2 (totalMarketValue positions)
        pure ((if params.max_single_stock_ratio < ratio then
          [{ level := "ERROR", code := "RISK_CONCENTRATION_EXCEEDED"
             message := "单票" ++ e.1 ++ "集中度过高：" ++ toString (ratio * 100)
               ++ "% > " ++ toString (params.max_single_stock_ratio * 100) ++ "%"
             stock_code := some e.1
             current_value := some ratio
             limit_value := some params.max_single_stock_ratio }]
         else []) ++ acc))
      [] (stockValues positions)

/-- `check` with every division it performs instrumented (`checkProfitLoss`
performs none). -/
def checkChecked (params : RiskParams) (positions : List Position) :
    Option (List RiskAlert) := do
  let a ← checkTotalPositionChecked params positions
  let b ← checkConcentrationChecked params positions
  pure (a ++ b ++ checkProfitLoss params positions)

/-! ### Derived quantities used in the claim statements -/

/-- Sum of parsed volumes of the orders booked under key `k` with
direction `dir`. -/
def orderVolumeSum (orders : List Order) (k dir : String) : Int :=
  ((orders.filter fun o => orderKey o = k ∧ orderDirection o = dir).map
    fun o => parseVolume o.volume).sum

/-- Sum of the volumes of the trades booked under key `k`. -/
def tradeVolumeSum (trades : List Trade) (k : String) : Int :=
  ((trades.filter fun t => tradeKey t = k).map (·.volume)).sum

/-- Sum of `price × volume` of the trades booked under key `k`. -/
def tradeCostSum (trades : List Trade) (k : String) : ℚ :=
  ((trades.filter fun t => tradeKey t = k).map
    fun t => t.price * (t.volume : ℚ)).sum

/-- Sum of the volumes of the trades booked under key `k` with direction
`dir`. -/
def tradeDirVolumeSum (trades : List Trade) (k dir : String) : Int :=
  ((trades.filter fun t => tradeKey t = k ∧ tradeDirection t = dir).map
    (·.volume)).sum

/-- The alerts of an alert list that come from the total-position check
(no other check emits these codes). -/
def totalPositionAlerts (alerts : List RiskAlert) : List RiskAlert :=
  alerts.filter fun a =>
    a.code = "RISK_TOTAL_POSITION_EXCEEDED" ∨ a.code = "RISK_TOTAL_POSITION_HIGH"

/-- Erase the emission timestamp of a signal. -/
def stripTime (s : T0Signal) : T0Signal :=
  { s with created_at := "" }

/-! ### Concrete inputs for the witnesses and counterexamples -/

/-- A concrete BUY order of 100 shares. -/
def oBuy100 : Order :=
  { order_type := "23", price_type := "18", stock_code := "600519"
    volume := "100", account_id := "ACC1", strategy := none }

/-- A concrete SELL order of 40 shares. -/
def oSell40 : Order :=
  { order_type := "24", price_type := "19", stock_code := "600519"
    volume := "40", account_id := "ACC1", strategy := none }

/-- A concrete BUY trade, 1000 shares at 10. -/
def tBuy1000 : Trade :=
  { stock_code := "600519", account_id := "ACC1", strategy := none
    direction := some "BUY", volume := 1000, price := 10, trade_time := "a" }

/-- A concrete BUY trade, 500 shares at 12. -/
def tBuy500 : Trade :=
  { stock_code := "600519", account_id := "ACC1", strategy := none
    direction := some "BUY", volume := 500, price := 12, trade_time := "b" }

/-- A concrete SELL trade, 400 shares at 10.6. -/
def tSell400 : Trade :=
  { stock_code := "600519", account_id := "ACC1", strategy := none
    direction := some "SELL", volume := 400, price := 53/5, trade_time := "c" }

/-- A BUY trade with volume 0, timestamped before every other trade. -/
def tBuyZero : Trade :=
  { stock_code := "600519", account_id := "ACC1", strategy := none
    direction := some "BUY", volume := 0, price := 10, trade_time := "0" }

/-- A BUY trade with a negative volume. -/
def tBuyNeg : Trade :=
  { stock_code := "600519", account_id := "ACC1", strategy := none
    direction := some "BUY", volume := -100, price := 10, trade_time := "a" }

/-- First half of a composite-key collision:
stock `A_B`, account `C`, strategy `D`. -/
def tColl1 : Trade :=
  { stock_code := "A_B", account_id := "C", strategy := some "D"
    direction := some "BUY", volume := 100, price := 10, trade_time := "a" }

/-- Second half of a composite-key collision: stock `A`, account `B`,
strategy `C_D` — the same composite key `A_B_C_D` as `tColl1`. -/
def tColl2 : Trade :=
  { stock_code := "A", account_id := "B", strategy := some "C_D"
    direction := some "BUY", volume := 100, price := 10, trade_time := "b" }

/-- The composite key shared by the C1/C2/C6/C7 witnesses. -/
def exKey : String := "600519_ACC1_DEFAULT"

/-- The position the C1 counterexample and witness inspect. -/
def c1Pos : Position :=
  (((calculate [] [oBuy100, oSell40] []).lookup exKey).getD (mkPosition "" "" ""))

/-- The T0 position the C2 counterexample inspects. -/
def c2BadPos : T0Position :=
  (((calculateT0 [tBuyZero, tBuy1000, tSell400]).lookup exKey).getD
    (computeT0 []))

/-- The T0 position the C2 witness inspects. -/
def c2GoodPos : T0Position :=
  (((calculateT0 [tBuy1000, tBuy500, tSell400]).lookup exKey).getD
    (computeT0 []))

/-- The position the C6 counterexample inspects. -/
def c6BadPos : Position :=
  (((calculate [tBuyNeg] [] []).lookup exKey).getD (mkPosition "" "" ""))

/-- The position the C6/C7/C8 witnesses inspect. -/
def c7Pos : Position :=
  (((calculate [tBuy1000, tBuy500] [oBuy100] [("600519", 12)]).lookup exKey).getD
    (mkPosition "" "" ""))

/-- The position the C8 counterexample inspects (key collision). -/
def c8BadPos : Position :=
  (((calculate [tColl1, tColl2] [] [("A", 5)]).lookup "A_B_C_D").getD
    (mkPosition "" "" ""))

/-- A bare position carrying only a market value, for the risk-check
inputs. -/
def mvPos (mv : ℚ) : Position :=
  { mkPosition "600519" "ACC1" "DEFAULT" with market_value := mv }

/-- A T0 position with more buys than sells and a pending volume, for the
signal witnesses. -/
def pendingT0 : T0Position :=
  { stock_code := "600519", account_id := "ACC1", strategy := "DEFAULT"
    t0_buy_volume := 800, t0_sell_volume := 400, t0_completed := 400
    t0_pending := 400 }

/-- The default risk parameters (`DEFAULT_RISK_PARAMS`). -/
def defaultRiskParams : RiskParams := {}

/-- Risk parameters with a negative total-position limit. -/
def negLimitParams : RiskParams := { max_total_position := -10 }

/-- The default T0 strategy parameters (`DEFAULT_PARAMS`). -/
def defaultT0Params : T0Params := {}

/-- A one-entry `t0_positions` dict for the signal examples. -/
def exT0Dict : List (String × T0Position) := [(exKey, pendingT0)]

/-- The position the C6 witness inspects. -/
def c6Pos : Position :=
  (((calculate [tBuy1000, tSell400] [oBuy100] []).lookup exKey).getD
    (mkPosition "" "" ""))

/-! ### Proof-side denotations -/

/-- Denotation of one trades-fold step at a fixed key. -/
def tradeStep (prices : List (String × ℚ)) (acc : Option Position) (t : Trade) :
    Option Position :=
  some (applyTrade prices
    (acc.getD (mkPosition t.stock_code t.account_id (tradeStrategy t))) t)

/-- Denotation of one orders-fold step at a fixed key. -/
def orderStep (acc : Option Position) (o : Order) : Option Position :=
  some (applyOrder
    (acc.getD (mkPosition o.stock_code o.account_id (orderStrategy o))) o)

/-- Sum of parsed volumes of the orders with direction `dir` (already
filtered to one key). -/
def dirOrderSum (os : List Order) (dir : String) : Int :=
  ((os.filter fun o => orderDirection o = dir).map
    fun o => parseVolume o.volume).sum

/-- Sum of the volumes of the trades with direction `dir` (already
filtered to one key). -/
def dirTradeSum (ts : List Trade) (dir : String) : Int :=
  ((ts.filter fun t => tradeDirection t = dir).map (·.volume)).sum

/-- Lot list of the trades with direction `dir`, in order. -/
def dirLots (ts : List Trade) (dir : String) : List Lot :=
  (ts.filter fun t => tradeDirection t = dir).map
    fun t => ⟨t.volume, t.price⟩

/-- The value stored for one key after a group-building fold: new keys
start from `none`, and an existing group is extended by appending. -/
def combineG (acc : Option (List Trade)) (f : List Trade) : Option (List Trade) :=
  match acc with
  | some g => some (g ++ f)
  | none => if f = [] then none else some f

/-! ### Association-list lemmas -/

theorem pymax_eq_max (a b : Int) : pymax a b = max a b := by
  unfold pymax
  omega

theorem pymin_eq_min (a b : Int) : pymin a b = min a b := by
  unfold pymin
  omega

theorem pyabs_eq_abs (a : Int) : pyabs a = |a| := by
  unfold pyabs
  split_ifs with h
  · rw [abs_of_neg h]
  · rw [abs_of_nonneg (by omega)]

theorem lookup_append_some {β : Type} {m1 : List (String × β)}
    (m2 : List (String × β)) {k : String} {v : β} (h : m1.lookup k = some v) :
    (m1 ++ m2).lookup k = some v := by
  induction m1 with
  | nil => simp [List.lookup] at h
  | cons e m ih =>
    rw [List.cons_append]
    by_cases he : k = e.1
    · simpa [List.lookup, he] using h
    · rw [List.lookup] at h ⊢
      simp only [beq_eq_false_iff_ne.mpr he] at h ⊢
      exact ih h

theorem lookup_append_none {β : Type} {m1 : List (String × β)}
    (m2 : List (String × β)) {k : String} (h : m1.lookup k = none) :
    (m1 ++ m2).lookup k = m2.lookup k := by
  induction m1 with
  | nil => simp
  | cons e m ih =>
    rw [List.cons_append]
    by_cases he : k = e.1
    · simp [List.lookup, he] at h
    · rw [List.lookup] at h ⊢
      simp only [beq_eq_false_iff_ne.mpr he] at h ⊢
      exact ih h

theorem lookup_map_self {β : Type} (m : List (String × β)) (k : String)
    (f : β → β) :
    (m.map fun e => if e.1 = k then (e.1, f e.2) else e).lookup k
      = (m.lookup k).map f := by
  induction m with
  | nil => rfl
  | cons e m ih =>
    obtain ⟨a, b⟩ := e
    by_cases he : a = k
    · subst he
      rw [List.map_cons]
      simp only [if_pos rfl]
      simp [List.lookup]
    · rw [List.map_cons]
      simp only [if_neg he]
      simp only [List.lookup, beq_eq_false_iff_ne.mpr (Ne.symm he), ih]

theorem lookup_map_ne {β : Type} (m : List (String × β)) {k k' : String}
    (f : β → β) (h : k' ≠ k) :
    (m.map fun e => if e.1 = k then (e.1, f e.2) else e).lookup k'
      = m.lookup k' := by
  induction m with
  | nil => rfl
  | cons e m ih =>
    obtain ⟨a, b⟩ := e
    by_cases he : a = k
    · subst he
      rw [List.map_cons]
      simp only [if_pos rfl]
      simp only [List.lookup, beq_eq_false_iff_ne.mpr h, ih]
    · rw [List.map_cons]
      simp only [if_neg he]
      by_cases hk : k' = a
      · subst hk
        simp [List.lookup]
      · simp only [List.lookup, beq_eq_false_iff_ne.mpr hk, ih]

theorem lookup_map_values {β γ : Type} (m : List (String × β)) (k : String)
    (g : β → γ) :
    (m.map fun e => (e.1, g e.2)).lookup k = (m.lookup k).map g := by
  induction m with
  | nil => rfl
  | cons e m ih =>
    obtain ⟨a, b⟩ := e
    by_cases he : k = a
    · subst he
      simp [List.lookup]
    · simp only [List.map_cons, List.lookup,
        beq_eq_false_iff_ne.mpr he, ih]

theorem lookup_upsert_self {β : Type} (m : List (String × β)) (k : String)
    (f : β → β) (init : β) :
    (upsert m k f init).lookup k = some (f ((m.lookup k).getD init)) := by
  unfold upsert
  cases hv : m.lookup k with
  | some v => simp [hv, lookup_map_self]
  | none =>
    simp only [hv, Option.isSome_none, Bool.false_eq_true, if_false,
      Option.getD_none]
    rw [lookup_append_none _ hv]
    simp [List.lookup]

theorem lookup_upsert_ne {β : Type} (m : List (String × β)) {k k' : String}
    (f : β → β) (init : β) (h : k' ≠ k) :
    (upsert m k f init).lookup k' = m.lookup k' := by
  unfold upsert
  cases hv : m.lookup k with
  | some v => simp [hv, lookup_map_ne _ _ h]
  | none =>
    simp only [hv, Option.isSome_none, Bool.false_eq_true, if_false]
    cases hv2 : m.lookup k' with
    | some w => exact lookup_append_some _ hv2
    | none =>
      rw [lookup_append_none _ hv2]
      simp [List.lookup, beq_eq_false_iff_ne.mpr h]

/-! ### Frame lemmas: what each fold does to one key -/

theorem foldTrades_lookup (prices : List (String × ℚ)) :
    ∀ (ts : List Trade) (m : List (String × Position)) (k : String),
    (foldTrades prices m ts).lookup k
      = (ts.filter fun t => tradeKey t = k).foldl (tradeStep prices)
          (m.lookup k) := by
  intro ts
  induction ts with
  | nil => intro m k; simp [foldTrades]
  | cons t ts ih =>
    intro m k
    show (foldTrades prices
      (setPos m (tradeKey t) (fun p => applyTrade prices p t)
        (mkPosition t.stock_code t.account_id (tradeStrategy t))) ts).lookup k = _
    by_cases hk : tradeKey t = k
    · have hd : decide (tradeKey t = k) = true := decide_eq_true hk
      rw [List.filter_cons]
      simp only [hd, if_true, List.foldl_cons, ih]
      congr 1
      subst hk
      rw [setPos, lookup_upsert_self]
      rfl
    · have hd : decide (tradeKey t = k) = false :=
        decide_eq_false hk
      rw [List.filter_cons]
      simp only [hd, Bool.false_eq_true, if_false, ih]
      congr 1
      exact lookup_upsert_ne _ _ _ (fun h => hk h.symm)

theorem foldOrders_lookup :
    ∀ (os : List Order) (m : List (String × Position)) (k : String),
    (foldOrders m os).lookup k
      = (os.filter fun o => orderKey o = k).foldl orderStep (m.lookup k) := by
  intro os
  induction os with
  | nil => intro m k; simp [foldOrders]
  | cons o os ih =>
    intro m k
    show (foldOrders
      (setPos m (orderKey o) (fun p => applyOrder p o)
        (mkPosition o.stock_code o.account_id (orderStrategy o))) os).lookup k = _
    by_cases hk : orderKey o = k
    · have hd : decide (orderKey o = k) = true := decide_eq_true hk
      rw [List.filter_cons]
      simp only [hd, if_true, List.foldl_cons, ih]
      congr 1
      subst hk
      rw [setPos, lookup_upsert_self]
      rfl
    · have hd : decide (orderKey o = k) = false := decide_eq_false hk
      rw [List.filter_cons]
      simp only [hd, Bool.false_eq_true, if_false, ih]
      congr 1
      exact lookup_upsert_ne _ _ _ (fun h => hk h.symm)

theorem foldl_tradeStep_some (prices : List (String × ℚ)) :
    ∀ (l : List Trade) (q : Position),
    l.foldl (tradeStep prices) (some q)
      = some (l.foldl (fun p t => applyTrade prices p t) q) := by
  intro l
  induction l with
  | nil => intro q; rfl
  | cons t l ih => intro q; simpa [tradeStep] using ih (applyTrade prices q t)

theorem foldl_orderStep_some :
    ∀ (l : List Order) (q : Position),
    l.foldl orderStep (some q) = some (l.foldl applyOrder q) := by
  intro l
  induction l with
  | nil => intro q; rfl
  | cons o l ih => intro q; simpa [orderStep] using ih (applyOrder q o)

theorem calculate_lookup (trades : List Trade) (orders : List Order)
    (prices : List (String × ℚ)) (k : String) :
    (calculate trades orders prices).lookup k
      = ((orders.filter fun o => orderKey o = k).foldl orderStep
          ((trades.filter fun t => tradeKey t = k).foldl (tradeStep prices)
            none)).map finalizePos := by
  unfold calculate
  rw [lookup_map_values, foldOrders_lookup, foldTrades_lookup]
  rfl

/-! ### Field behavior of the per-record steps -/

theorem orderDirection_cases (o : Order) :
    orderDirection o = "BUY" ∨ orderDirection o = "SELL" := by
  unfold orderDirection
  split_ifs <;> simp

theorem applyOrder_buy {o : Order} (p : Position)
    (h : orderDirection o = "BUY") :
    applyOrder p o = { p with buy_volume := p.buy_volume + parseVolume o.volume
                              frozen_volume := p.frozen_volume + parseVolume o.volume } := by
  unfold applyOrder
  rw [if_pos h]

theorem applyOrder_sell {o : Order} (p : Position)
    (h : orderDirection o = "SELL") :
    applyOrder p o = { p with sell_volume := p.sell_volume + parseVolume o.volume
                              frozen_volume := p.frozen_volume + parseVolume o.volume } := by
  have hne : ¬ orderDirection o = "BUY" := by rw [h]; decide
  unfold applyOrder
  rw [if_neg hne, if_pos h]

/-- The orders fold only accumulates `buy_volume`, `sell_volume` and
`frozen_volume`; every other field rides through unchanged. -/
theorem ordersRun (os : List Order) :
    ∀ q : Position,
    let r := os.foldl applyOrder q
    r.total_volume = q.total_volume ∧ r.avg_cost = q.avg_cost ∧
    r.current_price = q.current_price ∧ r.stock_code = q.stock_code ∧
    r.buy_volume = q.buy_volume + dirOrderSum os "BUY" ∧
    r.sell_volume = q.sell_volume + dirOrderSum os "SELL" ∧
    r.frozen_volume = q.frozen_volume + dirOrderSum os "BUY" + dirOrderSum os "SELL" := by
  induction os with
  | nil => intro q; simp [dirOrderSum]
  | cons o os ih =>
    intro q
    have hsum : ∀ dir, dirOrderSum (o :: os) dir =
        (if orderDirection o = dir then parseVolume o.volume else 0)
          + dirOrderSum os dir := by
      intro dir
      unfold dirOrderSum
      rw [List.filter_cons]
      by_cases h : orderDirection o = dir
      · simp [h]
      · simp [h]
    obtain ⟨h1, h2, h3, h4, h5, h6, h7⟩ := ih (applyOrder q o)
    have hbs : dirOrderSum (o :: os) "BUY" + dirOrderSum (o :: os) "SELL"
        = (parseVolume o.volume) + (dirOrderSum os "BUY" + dirOrderSum os "SELL") := by
      rcases orderDirection_cases o with hb | hs
      · rw [hsum "BUY", hsum "SELL", if_pos hb, if_neg (by rw [hb]; decide)]
        omega
      · rw [hsum "BUY", hsum "SELL", if_pos hs, if_neg (by rw [hs]; decide)]
        omega
    rcases orderDirection_cases o with hb | hs
    · have e := applyOrder_buy q hb
      refine ⟨?_, ?_, ?_, ?_, ?_, ?_, ?_⟩
      · rw [List.foldl_cons, h1, e]
      · rw [List.foldl_cons, h2, e]
      · rw [List.foldl_cons, h3, e]
      · rw [List.foldl_cons, h4, e]
      · rw [List.foldl_cons, h5, e, hsum "BUY", if_pos hb]
        show q.buy_volume + parseVolume o.volume + dirOrderSum os "BUY" = _
        omega
      · rw [List.foldl_cons, h6, e, hsum "SELL", if_neg (by rw [hb]; decide)]
        show q.sell_volume + dirOrderSum os "SELL" = q.sell_volume + (0 + _)
        omega
      · rw [List.foldl_cons, h7, e]
        show q.frozen_volume + parseVolume o.volume + dirOrderSum os "BUY"
            + dirOrderSum os "SELL" = _
        omega
    · have e := applyOrder_sell q hs
      refine ⟨?_, ?_, ?_, ?_, ?_, ?_, ?_⟩
      · rw [List.foldl_cons, h1, e]
      · rw [List.foldl_cons, h2, e]
      · rw [List.foldl_cons, h3, e]
      · rw [List.foldl_cons, h4, e]
      · rw [List.foldl_cons, h5, e, hsum "BUY", if_neg (by rw [hs]; decide)]
        show q.buy_volume + dirOrderSum os "BUY" = q.buy_volume + (0 + _)
        omega
      · rw [List.foldl_cons, h6, e, hsum "SELL", if_pos hs]
        show q.sell_volume + parseVolume o.volume + dirOrderSum os "SELL" = _
        omega
      · rw [List.foldl_cons, h7, e]
        show q.frozen_volume + parseVolume o.volume + dirOrderSum os "BUY"
            + dirOrderSum os "SELL" = _
        omega

theorem finalizePos_total (p : Position) :
    (finalizePos p).total_volume = p.total_volume := by
  unfold finalizePos finalizeAvailable finalizePL finalizeMV
  split_ifs <;> rfl

theorem finalizePos_frozen (p : Position) :
    (finalizePos p).frozen_volume = p.frozen_volume := by
  unfold finalizePos finalizeAvailable finalizePL finalizeMV
  split_ifs <;> rfl

theorem finalizePos_avg (p : Position) :
    (finalizePos p).avg_cost = p.avg_cost := by
  unfold finalizePos finalizeAvailable finalizePL finalizeMV
  split_ifs <;> rfl

theorem finalizePos_price (p : Position) :
    (finalizePos p).current_price = p.current_price := by
  unfold finalizePos finalizeAvailable finalizePL finalizeMV
  split_ifs <;> rfl

theorem finalizePos_stock (p : Position) :
    (finalizePos p).stock_code = p.stock_code := by
  unfold finalizePos finalizeAvailable finalizePL finalizeMV
  split_ifs <;> rfl

theorem finalizePos_buyVolume (p : Position) :
    (finalizePos p).buy_volume = p.buy_volume := by
  unfold finalizePos finalizeAvailable finalizePL finalizeMV
  split_ifs <;> rfl

theorem finalizePos_sellVolume (p : Position) :
    (finalizePos p).sell_volume = p.sell_volume := by
  unfold finalizePos finalizeAvailable finalizePL finalizeMV
  split_ifs <;> rfl

theorem finalizePos_available (p : Position) :
    (finalizePos p).available_volume
      = max 0 (p.total_volume - p.frozen_volume) := by
  unfold finalizePos finalizeAvailable finalizePL finalizeMV
  split_ifs <;> exact pymax_eq_max 0 _

theorem finalizePos_marketValue (p : Position) :
    (finalizePos p).market_value = (p.total_volume : ℚ) * p.current_price := by
  unfold finalizePos finalizeAvailable finalizePL finalizeMV
  split_ifs <;> rfl

theorem finalizePos_pl (p : Position)
    (h : 0 < p.total_volume ∧ 0 < p.avg_cost) :
    (finalizePos p).profit_loss
        = (p.current_price - p.avg_cost) * (p.total_volume : ℚ)
      ∧ (finalizePos p).profit_loss_ratio
        = (p.current_price - p.avg_cost) / p.avg_cost := by
  unfold finalizePos finalizeAvailable finalizePL finalizeMV
  split_ifs with hc
  · exact ⟨rfl, rfl⟩
  · exact absurd h hc

/-! ### Behavior of the trades fold -/

theorem applyTrade_total (prices : List (String × ℚ)) (p : Position) (t : Trade) :
    (applyTrade prices p t).total_volume = (applyTradeDir p t).total_volume := by
  unfold applyTrade applyTradePrice
  cases lookupPrice prices t.stock_code <;> rfl

theorem applyTrade_avg (prices : List (String × ℚ)) (p : Position) (t : Trade) :
    (applyTrade prices p t).avg_cost = (applyTradeDir p t).avg_cost := by
  unfold applyTrade applyTradePrice
  cases lookupPrice prices t.stock_code <;> rfl

theorem applyTrade_stock (prices : List (String × ℚ)) (p : Position) (t : Trade) :
    (applyTrade prices p t).stock_code = p.stock_code := by
  unfold applyTrade applyTradePrice applyTradeDir
  cases lookupPrice prices t.stock_code <;> split_ifs <;> rfl

theorem applyTradeDir_buy {t : Trade} (p : Position)
    (h : tradeDirection t = "BUY") :
    applyTradeDir p t
      = { p with
          total_volume := p.total_volume + t.volume
          avg_cost :=
            if 0 < p.total_volume + t.volume then
              (p.avg_cost * (p.total_volume : ℚ) + t.price * (t.volume : ℚ))
                / ((p.total_volume + t.volume : Int) : ℚ)
            else 0 } := by
  unfold applyTradeDir
  rw [if_pos h]

theorem applyTradeDir_total_nonneg {t : Trade} (p : Position)
    (hv : 0 ≤ t.volume) (h0 : 0 ≤ p.total_volume) :
    0 ≤ (applyTradeDir p t).total_volume := by
  unfold applyTradeDir
  split_ifs
  all_goals first
    | (show 0 ≤ p.total_volume + t.volume
       omega)
    | (show 0 ≤ pymax 0 (p.total_volume - t.volume)
       rw [pymax_eq_max]
       omega)
    | exact h0

theorem applyTradeDir_price (p : Position) (t : Trade) :
    (applyTradeDir p t).current_price = p.current_price := by
  unfold applyTradeDir
  split_ifs <;> rfl

theorem volumeSum_nonneg :
    ∀ ts : List Trade, (∀ t ∈ ts, 0 < t.volume) →
    0 ≤ ((ts.map (·.volume)).sum) := by
  intro ts h
  induction ts with
  | nil => simp
  | cons t ts ih =>
    simp only [List.map_cons, List.sum_cons]
    have := h t (by simp)
    have := ih fun u hu => h u (by simp [hu])
    omega

/-- Over a run of BUY trades with positive volumes, the holding is the
volume sum and the average cost times the holding is the cost sum. -/
theorem buyRun (prices : List (String × ℚ)) :
    ∀ (ts : List Trade) (q : Position),
    (∀ t ∈ ts, tradeDirection t = "BUY" ∧ 0 < t.volume) →
    0 ≤ q.total_volume →
    let r := ts.foldl (fun p t => applyTrade prices p t) q
    r.total_volume = q.total_volume + ((ts.map (·.volume)).sum) ∧
    r.avg_cost * (r.total_volume : ℚ)
      = q.avg_cost * (q.total_volume : ℚ)
        + ((ts.map fun t => t.price * (t.volume : ℚ)).sum) ∧
    (ts ≠ [] → 0 < r.total_volume) := by
  intro ts
  induction ts with
  | nil => intro q h h0; refine ⟨by simp, by simp, by simp⟩
  | cons t ts ih =>
    intro q h h0
    obtain ⟨hb, hv⟩ := h t (by simp)
    have hrest : ∀ u ∈ ts, tradeDirection u = "BUY" ∧ 0 < u.volume :=
      fun u hu => h u (by simp [hu])
    set q1 := applyTrade prices q t with hq1
    have htv1 : q1.total_volume = q.total_volume + t.volume := by
      rw [hq1, applyTrade_total, applyTradeDir_buy _ hb]
    have hpos1 : 0 < q1.total_volume := by omega
    have hcast : ((q.total_volume + t.volume : Int) : ℚ) ≠ 0 := by
      rw [Int.cast_ne_zero]; omega
    have hav1 : q1.avg_cost * (q1.total_volume : ℚ)
        = q.avg_cost * (q.total_volume : ℚ) + t.price * (t.volume : ℚ) := by
      rw [hq1, applyTrade_avg, applyTrade_total, applyTradeDir_buy _ hb]
      show (if 0 < q.total_volume + t.volume then _ else 0) * _ = _
      rw [if_pos (by omega : 0 < q.total_volume + t.volume)]
      exact div_mul_cancel₀ _ hcast
    obtain ⟨ih1, ih2, ih3⟩ := ih q1 hrest (le_of_lt hpos1)
    refine ⟨?_, ?_, ?_⟩
    · rw [List.foldl_cons, ← hq1, ih1, htv1]
      simp only [List.map_cons, List.sum_cons]
      omega
    · rw [List.foldl_cons, ← hq1, ih2, hav1]
      simp only [List.map_cons, List.sum_cons]
      ring
    · intro hne
      rw [List.foldl_cons, ← hq1, ih1]
      have : 0 ≤ ((ts.map (·.volume)).sum) :=
        volumeSum_nonneg ts fun u hu => (hrest u hu).2
      omega

/-- The trades fold keeps the holding nonnegative when every trade volume
is nonnegative. -/
theorem tradesRun_nonneg (prices : List (String × ℚ)) :
    ∀ (ts : List Trade) (q : Position),
    (∀ t ∈ ts, 0 ≤ t.volume) → 0 ≤ q.total_volume →
    0 ≤ (ts.foldl (fun p t => applyTrade prices p t) q).total_volume := by
  intro ts
  induction ts with
  | nil => intro q h h0; simpa using h0
  | cons t ts ih =>
    intro q h h0
    rw [List.foldl_cons]
    refine ih (applyTrade prices q t) (fun u hu => h u (by simp [hu])) ?_
    rw [applyTrade_total]
    exact applyTradeDir_total_nonneg q (h t (by simp)) h0

/-- The trades fold never changes the stock code, and when the stock is
absent from the price map it never changes the current price either. -/
theorem tradesRun_stock (prices : List (String × ℚ)) :
    ∀ (ts : List Trade) (q : Position),
    (∀ t ∈ ts, t.stock_code = q.stock_code) →
    let r := ts.foldl (fun p t => applyTrade prices p t) q
    r.stock_code = q.stock_code ∧
    (lookupPrice prices q.stock_code = none → r.current_price = q.current_price) := by
  intro ts
  induction ts with
  | nil => intro q h; exact ⟨rfl, fun _ => rfl⟩
  | cons t ts ih =>
    intro q h
    have hts : t.stock_code = q.stock_code := h t (by simp)
    have hstock1 : (applyTrade prices q t).stock_code = q.stock_code :=
      applyTrade_stock prices q t
    obtain ⟨ihs, ihp⟩ := ih (applyTrade prices q t)
      (fun u hu => (h u (by simp [hu])).trans hstock1.symm)
    constructor
    · rw [List.foldl_cons, ihs, hstock1]
    · intro hnone
      rw [List.foldl_cons, ihp (by rw [hstock1]; exact hnone)]
      show (applyTradePrice prices (applyTradeDir q t) t).current_price = _
      unfold applyTradePrice
      rw [← hts] at hnone
      rw [hnone]
      exact applyTradeDir_price q t

/-! ### Assembled behavior of `calculate` at one key -/

theorem foldl_tradeStep_none_cons (prices : List (String × ℚ))
    (t : Trade) (ts : List Trade) :
    (t :: ts).foldl (tradeStep prices) none
      = some ((t :: ts).foldl (fun p u => applyTrade prices p u)
          (mkPosition t.stock_code t.account_id (tradeStrategy t))) := by
  rw [List.foldl_cons]
  show ts.foldl (tradeStep prices) (some (applyTrade prices _ t)) = _
  rw [foldl_tradeStep_some]
  rfl

theorem foldl_orderStep_none_cons (o : Order) (os : List Order) :
    (o :: os).foldl orderStep none
      = some ((o :: os).foldl applyOrder
          (mkPosition o.stock_code o.account_id (orderStrategy o))) := by
  rw [List.foldl_cons]
  show os.foldl orderStep (some (applyOrder _ o)) = _
  rw [foldl_orderStep_some]
  rfl

theorem finalize_available_eq (r : Position) :
    (finalizePos r).available_volume
      = max 0 ((finalizePos r).total_volume - (finalizePos r).frozen_volume) := by
  rw [finalizePos_available, finalizePos_total, finalizePos_frozen]

theorem finalize_mv_eq (r : Position) :
    (finalizePos r).market_value
      = ((finalizePos r).total_volume : ℚ) * (finalizePos r).current_price := by
  rw [finalizePos_marketValue, finalizePos_total, finalizePos_price]

theorem finalize_pl_eq (r : Position)
    (h : 0 < (finalizePos r).total_volume ∧ 0 < (finalizePos r).avg_cost) :
    (finalizePos r).profit_loss
        = ((finalizePos r).current_price - (finalizePos r).avg_cost)
            * ((finalizePos r).total_volume : ℚ)
      ∧ (finalizePos r).profit_loss_ratio
        = (finalizePos r).profit_loss
            / ((finalizePos r).avg_cost * ((finalizePos r).total_volume : ℚ)) := by
  have h' : 0 < r.total_volume ∧ 0 < r.avg_cost := by
    rwa [finalizePos_total, finalizePos_avg] at h
  obtain ⟨e1, e2⟩ := finalizePos_pl r h'
  have htv : ((r.total_volume : ℚ)) ≠ 0 := Int.cast_ne_zero.mpr (by omega)
  rw [finalizePos_total, finalizePos_avg, finalizePos_price, e1, e2]
  exact ⟨rfl, (mul_div_mul_right _ _ htv).symm⟩

theorem filter_key_dir (os : List Order) (k dir : String) :
    ((os.filter fun o => orderKey o = k).filter fun o => orderDirection o = dir)
      = os.filter fun o => orderKey o = k ∧ orderDirection o = dir := by
  rw [List.filter_filter]
  apply List.filter_congr
  intro o _
  by_cases h1 : orderKey o = k <;> by_cases h2 : orderDirection o = dir <;>
    simp [h1, h2]

theorem orderVolumeSum_eq (orders : List Order) (k dir : String) :
    orderVolumeSum orders k dir
      = dirOrderSum (orders.filter fun o => orderKey o = k) dir := by
  unfold orderVolumeSum dirOrderSum
  rw [filter_key_dir]

/-! ### Claim theorems: position ledger -/

/-- Claim C1 (amended): when no trades are supplied, `calculate` performs
no order-based estimate at all — every recorded position keeps
`total_volume = 0` (and `avg_cost = 0`); the orders contribute only the
committed `buy_volume`, `sell_volume` and `frozen_volume` sums of their
key. -/
theorem calculate_no_trades_no_estimate (orders : List Order)
    (prices : List (String × ℚ)) (k : String) (p : Position)
    (h : (calculate [] orders prices).lookup k = some p) :
    p.total_volume = 0 ∧ p.avg_cost = 0
    ∧ p.buy_volume = orderVolumeSum orders k "BUY"
    ∧ p.sell_volume = orderVolumeSum orders k "SELL"
    ∧ p.frozen_volume
        = orderVolumeSum orders k "BUY" + orderVolumeSum orders k "SELL" := by
  rw [calculate_lookup] at h
  simp only [List.filter_nil, List.foldl_nil] at h
  rcases Option.map_eq_some'.mp h with ⟨r, hr, hp⟩
  cases hfO : orders.filter fun o => orderKey o = k with
  | nil => rw [hfO] at hr; simp at hr
  | cons o os2 =>
    rw [hfO, foldl_orderStep_none_cons] at hr
    have hrr := Option.some.inj hr
    obtain ⟨e1, e2, e3, e4, e5, e6, e7⟩ :=
      ordersRun (o :: os2) (mkPosition o.stock_code o.account_id (orderStrategy o))
    rw [hrr] at e1 e2 e5 e6 e7
    rw [orderVolumeSum_eq, orderVolumeSum_eq, hfO]
    refine ⟨?_, ?_, ?_, ?_, ?_⟩
    · rw [← hp, finalizePos_total, e1]; rfl
    · rw [← hp, finalizePos_avg, e2]; rfl
    · rw [← hp, finalizePos_buyVolume, e5]
      show (0 : Int) + _ = _
      omega
    · rw [← hp, finalizePos_sellVolume, e6]
      show (0 : Int) + _ = _
      omega
    · rw [← hp, finalizePos_frozen, e7]
      show (0 : Int) + _ + _ = _
      omega

/-- Claim C6 (amended): every position returned by `calculate` satisfies
`available_volume = max 0 (total_volume - frozen_volume)`; and as long as
every trade volume is nonnegative, `total_volume` is never negative —
an oversell is clamped at zero by the SELL branch. -/
theorem calculate_nonneg_available (trades : List Trade) (orders : List Order)
    (prices : List (String × ℚ)) (k : String) (p : Position)
    (h : (calculate trades orders prices).lookup k = some p) :
    p.available_volume = max 0 (p.total_volume - p.frozen_volume)
    ∧ ((∀ t ∈ trades, 0 ≤ t.volume) → 0 ≤ p.total_volume) := by
  rw [calculate_lookup] at h
  rcases Option.map_eq_some'.mp h with ⟨r, hr, hp⟩
  refine ⟨by rw [← hp]; exact finalize_available_eq r, ?_⟩
  intro hnn
  rw [← hp, finalizePos_total]
  cases hfT : trades.filter fun t => tradeKey t = k with
  | nil =>
    rw [hfT] at hr
    simp only [List.foldl_nil] at hr
    cases hfO : orders.filter fun o => orderKey o = k with
    | nil => rw [hfO] at hr; simp at hr
    | cons o os2 =>
      rw [hfO, foldl_orderStep_none_cons] at hr
      have hrr := Option.some.inj hr
      obtain ⟨e1, _⟩ :=
        ordersRun (o :: os2) (mkPosition o.stock_code o.account_id (orderStrategy o))
      rw [hrr] at e1
      rw [e1]
      exact le_refl 0
  | cons t ts2 =>
    rw [hfT, foldl_tradeStep_none_cons, foldl_orderStep_some] at hr
    have hrr := Option.some.inj hr
    obtain ⟨e1, _⟩ := ordersRun (orders.filter fun o => orderKey o = k)
      ((t :: ts2).foldl (fun p u => applyTrade prices p u)
        (mkPosition t.stock_code t.account_id (tradeStrategy t)))
    rw [hrr] at e1
    rw [e1]
    refine tradesRun_nonneg prices (t :: ts2) _ ?_ (le_refl 0)
    intro u hu
    have : u ∈ trades.filter fun t => tradeKey t = k := by rw [hfT]; exact hu
    exact hnn u (List.mem_filter.mp this).1

/-- Claim C7 (confirmed): for a key whose trades are all BUY with positive
volumes, `calculate` reports `total_volume` as the sum of those volumes
and `avg_cost` as their volume-weighted mean price. -/
theorem calculate_all_buy (trades : List Trade) (orders : List Order)
    (prices : List (String × ℚ)) (k : String) (p : Position)
    (hb : ∀ t ∈ trades, tradeKey t = k →
      tradeDirection t = "BUY" ∧ 0 < t.volume)
    (h : (calculate trades orders prices).lookup k = some p) :
    p.total_volume = tradeVolumeSum trades k
    ∧ p.avg_cost = tradeCostSum trades k / ((tradeVolumeSum trades k : Int) : ℚ) := by
  rw [calculate_lookup] at h
  rcases Option.map_eq_some'.mp h with ⟨r, hr, hp⟩
  have hsum : tradeVolumeSum trades k
      = (((trades.filter fun t => tradeKey t = k).map (·.volume)).sum) := rfl
  have hcost : tradeCostSum trades k
      = (((trades.filter fun t => tradeKey t = k).map
          fun t => t.price * (t.volume : ℚ)).sum) := rfl
  cases hfT : trades.filter fun t => tradeKey t = k with
  | nil =>
    rw [hfT] at hr
    simp only [List.foldl_nil] at hr
    rw [hsum, hcost, hfT]
    cases hfO : orders.filter fun o => orderKey o = k with
    | nil => rw [hfO] at hr; simp at hr
    | cons o os2 =>
      rw [hfO, foldl_orderStep_none_cons] at hr
      have hrr := Option.some.inj hr
      obtain ⟨e1, e2, _⟩ :=
        ordersRun (o :: os2) (mkPosition o.stock_code o.account_id (orderStrategy o))
      rw [hrr] at e1 e2
      constructor
      · rw [← hp, finalizePos_total, e1]; rfl
      · rw [← hp, finalizePos_avg, e2]
        show (0 : ℚ) = 0 / _
        rw [zero_div]
  | cons t ts2 =>
    rw [hfT, foldl_tradeStep_none_cons, foldl_orderStep_some] at hr
    have hrr := Option.some.inj hr
    have hfb : ∀ u ∈ (t :: ts2), tradeDirection u = "BUY" ∧ 0 < u.volume := by
      intro u hu
      have : u ∈ trades.filter fun x => tradeKey x = k := by rw [hfT]; exact hu
      have hm := List.mem_filter.mp this
      exact hb u hm.1 (by simpa using hm.2)
    obtain ⟨b1, b2, b3⟩ := buyRun prices (t :: ts2)
      (mkPosition t.stock_code t.account_id (tradeStrategy t)) hfb (le_refl 0)
    obtain ⟨e1, e2, _⟩ := ordersRun (orders.filter fun o => orderKey o = k)
      ((t :: ts2).foldl (fun p u => applyTrade prices p u)
        (mkPosition t.stock_code t.account_id (tradeStrategy t)))
    rw [hrr] at e1 e2
    have hbpos := b3 (by simp)
    have htv : r.total_volume = (((t :: ts2).map (·.volume)).sum) := by
      rw [e1, b1]; show (0 : Int) + _ = _; omega
    have hav : r.avg_cost * (r.total_volume : ℚ)
        = (((t :: ts2).map fun u => u.price * (u.volume : ℚ)).sum) := by
      rw [e2, e1, b2]
      show (0 : ℚ) * _ + _ = _
      ring
    constructor
    · rw [← hp, finalizePos_total, hsum, hfT, htv]
    · rw [← hp, finalizePos_avg, hcost, hsum, hfT, ← htv]
      have hne : ((r.total_volume : Int) : ℚ) ≠ 0 := by
        rw [Int.cast_ne_zero, e1]
        omega
      rw [eq_div_iff hne]
      exact hav

/-- Claim C8 (amended): every position returned by `calculate` has
`market_value = total_volume × current_price` and the guarded
`profit_loss` / `profit_loss_ratio` formulas, unconditionally; the
remaining clause — a stock absent from the price map leaves
`current_price = 0` — holds provided the trades are free of composite-key
delimiter collisions (equal keys imply equal stock codes). -/
theorem calculate_market_value_pl (trades : List Trade) (orders : List Order)
    (prices : List (String × ℚ)) (k : String) (p : Position)
    (h : (calculate trades orders prices).lookup k = some p) :
    p.market_value = (p.total_volume : ℚ) * p.current_price
    ∧ ((∀ t1 ∈ trades, ∀ t2 ∈ trades,
          tradeKey t1 = tradeKey t2 → t1.stock_code = t2.stock_code) →
        lookupPrice prices p.stock_code = none → p.current_price = 0)
    ∧ (0 < p.total_volume ∧ 0 < p.avg_cost →
        p.profit_loss = (p.current_price - p.avg_cost) * (p.total_volume : ℚ)
        ∧ p.profit_loss_ratio
            = p.profit_loss / (p.avg_cost * (p.total_volume : ℚ))) := by
  rw [calculate_lookup] at h
  rcases Option.map_eq_some'.mp h with ⟨r, hr, hp⟩
  refine ⟨by rw [← hp]; exact finalize_mv_eq r, ?_, ?_⟩
  · -- current_price is zero when the stock is absent from the price map
    intro hcol hnone
    cases hfT : trades.filter fun t => tradeKey t = k with
    | nil =>
      rw [hfT] at hr
      simp only [List.foldl_nil] at hr
      cases hfO : orders.filter fun o => orderKey o = k with
      | nil => rw [hfO] at hr; simp at hr
      | cons o os2 =>
        rw [hfO, foldl_orderStep_none_cons] at hr
        have hrr := Option.some.inj hr
        obtain ⟨_, _, e3, _⟩ :=
          ordersRun (o :: os2) (mkPosition o.stock_code o.account_id (orderStrategy o))
        rw [hrr] at e3
        rw [← hp, finalizePos_price, e3]
        rfl
    | cons t ts2 =>
      rw [hfT, foldl_tradeStep_none_cons, foldl_orderStep_some] at hr
      have hrr := Option.some.inj hr
      have hmemt : t ∈ trades.filter fun x => tradeKey x = k := by rw [hfT]; simp
      have hkeyt : tradeKey t = k := by simpa using (List.mem_filter.mp hmemt).2
      have hstocks : ∀ u ∈ (t :: ts2), u.stock_code =
          (mkPosition t.stock_code t.account_id (tradeStrategy t)).stock_code := by
        intro u hu
        have humem : u ∈ trades.filter fun x => tradeKey x = k := by
          rw [hfT]; exact hu
        have hm := List.mem_filter.mp humem
        have hkeyu : tradeKey u = k := by simpa using hm.2
        exact hcol u hm.1 t (List.mem_filter.mp hmemt).1 (by rw [hkeyu, hkeyt])
      obtain ⟨s1, s2⟩ := tradesRun_stock prices (t :: ts2)
        (mkPosition t.stock_code t.account_id (tradeStrategy t)) hstocks
      obtain ⟨_, _, e3, e4, _⟩ := ordersRun (orders.filter fun o => orderKey o = k)
        ((t :: ts2).foldl (fun p u => applyTrade prices p u)
          (mkPosition t.stock_code t.account_id (tradeStrategy t)))
      rw [hrr] at e3 e4
      have hpstock : p.stock_code = t.stock_code := by
        rw [← hp, finalizePos_stock, e4, s1]
        rfl
      rw [hpstock] at hnone
      rw [← hp, finalizePos_price, e3, s2 hnone]
      rfl
  · intro hguard
    rw [← hp] at hguard ⊢
    exact finalize_pl_eq r hguard

/-! ### T0 matcher lemmas -/

theorem lotSum_nonneg :
    ∀ l : List Lot, (∀ x ∈ l, 0 < x.volume) → 0 ≤ lotSum l := by
  intro l h
  induction l with
  | nil => simp [lotSum]
  | cons x xs ih =>
    have hx := h x (by simp)
    have := ih fun y hy => h y (by simp [hy])
    show 0 ≤ x.volume + lotSum xs
    omega

theorem matchT0Go_nil_left (fuel : Nat) (sells : List Lot) :
    matchT0Go (fuel + 1) [] sells = (0, 0) := by
  cases sells <;> rfl

theorem matchT0Go_nil_right (fuel : Nat) (b : Lot) (bs : List Lot) :
    matchT0Go (fuel + 1) (b :: bs) [] = (0, 0) := rfl

theorem matchT0Go_fst :
    ∀ (fuel : Nat) (buys sells : List Lot),
    buys.length + sells.length ≤ fuel →
    (∀ x ∈ buys, 0 < x.volume) → (∀ x ∈ sells, 0 < x.volume) →
    (matchT0Go fuel buys sells).1 = min (lotSum buys) (lotSum sells) := by
  intro fuel
  induction fuel with
  | zero =>
    intro buys sells hlen _ _
    have hb : buys = [] := List.length_eq_zero.mp (by omega)
    have hs : sells = [] := List.length_eq_zero.mp (by omega)
    subst hb hs
    rfl
  | succ fuel ih =>
    intro buys sells hlen hb hs
    cases buys with
    | nil =>
      have hns := lotSum_nonneg sells hs
      rw [matchT0Go_nil_left]
      show (0 : Int) = min 0 (lotSum sells)
      omega
    | cons b bs =>
      cases sells with
      | nil =>
        have hnb := lotSum_nonneg (b :: bs) hb
        rw [matchT0Go_nil_right]
        show (0 : Int) = min (lotSum (b :: bs)) 0
        omega
      | cons s ss =>
        have hbv : 0 < b.volume := hb b (by simp)
        have hsv : 0 < s.volume := hs s (by simp)
        have hm : 0 < min b.volume s.volume := by omega
        show (if 0 < min b.volume s.volume then _ else ((0 : Int), (0 : ℚ))).1 = _
        rw [if_pos hm]
        have hone : b.volume - min b.volume s.volume = 0
            ∨ s.volume - min b.volume s.volume = 0 := by omega
        set m := min b.volume s.volume with hmdef
        set bs1 := if b.volume - m = 0 then bs
          else { b with volume := b.volume - m } :: bs with hbs1
        set ss1 := if s.volume - m = 0 then ss
          else { s with volume := s.volume - m } :: ss with hss1
        have hlb : bs1.length ≤ bs.length + 1 ∧
            (b.volume - m = 0 → bs1.length = bs.length) := by
          rw [hbs1]; split_ifs with h0 <;> simp [h0]
        have hls : ss1.length ≤ ss.length + 1 ∧
            (s.volume - m = 0 → ss1.length = ss.length) := by
          rw [hss1]; split_ifs with h0 <;> simp [h0]
        have hlen1 : bs1.length + ss1.length ≤ fuel := by
          rcases hone with h0 | h0
          · have := hlb.2 h0
            have := hls.1
            simp only [List.length_cons] at hlen
            omega
          · have := hls.2 h0
            have := hlb.1
            simp only [List.length_cons] at hlen
            omega
        have hpb1 : ∀ x ∈ bs1, 0 < x.volume := by
          rw [hbs1]; split_ifs with h0
          · exact fun x hx => hb x (by simp [hx])
          · intro x hx
            rcases List.mem_cons.mp hx with rfl | hx2
            · show 0 < b.volume - m
              omega
            · exact hb x (by simp [hx2])
        have hps1 : ∀ x ∈ ss1, 0 < x.volume := by
          rw [hss1]; split_ifs with h0
          · exact fun x hx => hs x (by simp [hx])
          · intro x hx
            rcases List.mem_cons.mp hx with rfl | hx2
            · show 0 < s.volume - m
              omega
            · exact hs x (by simp [hx2])
        have hsb1 : lotSum bs1 = lotSum (b :: bs) - m := by
          rw [hbs1]; split_ifs with h0
          · show lotSum bs = b.volume + lotSum bs - m
            omega
          · show (b.volume - m) + lotSum bs = (b.volume + lotSum bs) - m
            omega
        have hss1v : lotSum ss1 = lotSum (s :: ss) - m := by
          rw [hss1]; split_ifs with h0
          · show lotSum ss = s.volume + lotSum ss - m
            omega
          · show (s.volume - m) + lotSum ss = (s.volume + lotSum ss) - m
            omega
        have hrec := ih bs1 ss1 hlen1 hpb1 hps1
        show m + (matchT0Go fuel bs1 ss1).1 = _
        rw [hrec, hsb1, hss1v]
        have h1 : m ≤ lotSum (b :: bs) := by
          have := lotSum_nonneg bs fun y hy => hb y (by simp [hy])
          show m ≤ b.volume + lotSum bs
          omega
        have h2 : m ≤ lotSum (s :: ss) := by
          have := lotSum_nonneg ss fun y hy => hs y (by simp [hy])
          show m ≤ s.volume + lotSum ss
          omega
        omega

theorem matchT0_fst (buys sells : List Lot)
    (hb : ∀ x ∈ buys, 0 < x.volume) (hs : ∀ x ∈ sells, 0 < x.volume) :
    (matchT0 buys sells).1 = min (lotSum buys) (lotSum sells) :=
  matchT0Go_fst (buys.length + sells.length) buys sells (le_refl _) hb hs

/-! ### Grouping lemmas -/

theorem buildGroups_go (ts : List Trade) :
    ∀ (gs : List (String × List Trade)) (k : String),
    ((ts.foldl (fun gs t => addToGroup gs (tradeKey t) t) gs).lookup k)
      = combineG (gs.lookup k) (ts.filter fun t => tradeKey t = k) := by
  induction ts with
  | nil =>
    intro gs k
    cases h : gs.lookup k <;> simp [combineG, h]
  | cons t ts ih =>
    intro gs k
    rw [List.foldl_cons, ih]
    by_cases hk : tradeKey t = k
    · have hd : decide (tradeKey t = k) = true := decide_eq_true hk
      rw [List.filter_cons]
      simp only [hd, if_true]
      subst hk
      rw [addToGroup, lookup_upsert_self]
      cases hg : gs.lookup (tradeKey t) with
      | some g => simp [combineG, hg]
      | none => simp [combineG, hg]
    · have hd : decide (tradeKey t = k) = false := decide_eq_false hk
      rw [List.filter_cons]
      simp only [hd, Bool.false_eq_true, if_false]
      rw [addToGroup, lookup_upsert_ne _ _ _ (fun h => hk h.symm)]

theorem calculateT0_lookup (trades : List Trade) (k : String) :
    (calculateT0 trades).lookup k
      = if (trades.filter fun t => tradeKey t = k) = [] then none
        else some (computeT0 (trades.filter fun t => tradeKey t = k)) := by
  unfold calculateT0 buildGroups
  rw [lookup_map_values, buildGroups_go]
  have : (([] : List (String × List Trade)).lookup k) = none := rfl
  rw [this]
  unfold combineG
  split_ifs with h <;> simp

/-! ### Sorting and collecting inside a group -/

theorem insertByTime_perm (t : Trade) :
    ∀ l : List Trade, (insertByTime t l).Perm (t :: l) := by
  intro l
  induction l with
  | nil => exact List.Perm.refl _
  | cons u us ih =>
    unfold insertByTime
    split_ifs with h
    · exact (ih.cons u).trans (List.Perm.swap t u us)
    · exact List.Perm.refl _

theorem sortByTime_perm (ts : List Trade) : (sortByTime ts).Perm ts := by
  induction ts with
  | nil => exact List.Perm.refl _
  | cons t ts ih =>
    show (insertByTime t (sortByTime ts)).Perm (t :: ts)
    exact (insertByTime_perm t (sortByTime ts)).trans (ih.cons t)

theorem collectLots_go (ts : List Trade) :
    ∀ acc : List Lot × List Lot × Int × Int,
    ts.foldl
      (fun acc t =>
        if tradeDirection t = "BUY" then
          (acc.1 ++ [⟨t.volume, t.price⟩], acc.2.1,
            acc.2.2.1 + t.volume, acc.2.2.2)
        else if tradeDirection t = "SELL" then
          (acc.1, acc.2.1 ++ [⟨t.volume, t.price⟩],
            acc.2.2.1, acc.2.2.2 + t.volume)
        else acc) acc
      = (acc.1 ++ dirLots ts "BUY", acc.2.1 ++ dirLots ts "SELL",
          acc.2.2.1 + dirTradeSum ts "BUY", acc.2.2.2 + dirTradeSum ts "SELL") := by
  induction ts with
  | nil =>
    intro acc
    simp [dirLots, dirTradeSum]
  | cons t ts ih =>
    intro acc
    rw [List.foldl_cons, ih]
    have hlots : ∀ dir, dirLots (t :: ts) dir =
        (if tradeDirection t = dir then [(⟨t.volume, t.price⟩ : Lot)] else [])
          ++ dirLots ts dir := by
      intro dir
      unfold dirLots
      rw [List.filter_cons]
      by_cases h : tradeDirection t = dir <;> simp [h]
    have hsums : ∀ dir, dirTradeSum (t :: ts) dir =
        (if tradeDirection t = dir then t.volume else 0) + dirTradeSum ts dir := by
      intro dir
      unfold dirTradeSum
      rw [List.filter_cons]
      by_cases h : tradeDirection t = dir <;> simp [h]
    by_cases hbuy : tradeDirection t = "BUY"
    · rw [if_pos hbuy, hlots "BUY", hlots "SELL", hsums "BUY", hsums "SELL",
        if_pos hbuy, if_neg (by rw [hbuy]; decide), if_pos hbuy,
        if_neg (by rw [hbuy]; decide)]
      simp only [Prod.mk.injEq, List.append_assoc, List.singleton_append,
        List.nil_append]
      repeat' constructor
      all_goals first | rfl | omega
    · by_cases hsell : tradeDirection t = "SELL"
      · rw [if_neg hbuy, if_pos hsell, hlots "BUY", hlots "SELL",
          hsums "BUY", hsums "SELL", if_neg (by rw [hsell]; decide),
          if_pos hsell, if_neg (by rw [hsell]; decide), if_pos hsell]
        simp only [Prod.mk.injEq, List.append_assoc, List.singleton_append,
          List.nil_append]
        repeat' constructor
        all_goals first | rfl | omega
      · rw [if_neg hbuy, if_neg hsell, hlots "BUY", hlots "SELL",
          hsums "BUY", hsums "SELL", if_neg hbuy, if_neg hsell,
          if_neg hbuy, if_neg hsell]
        simp only [Prod.mk.injEq, List.nil_append]
        repeat' constructor
        all_goals first | rfl | omega

theorem collectLots_spec (ts : List Trade) :
    collectLots ts
      = (dirLots ts "BUY", dirLots ts "SELL",
          dirTradeSum ts "BUY", dirTradeSum ts "SELL") := by
  unfold collectLots
  rw [collectLots_go]
  simp

theorem lotSum_dirLots (ts : List Trade) (dir : String) :
    lotSum (dirLots ts dir) = dirTradeSum ts dir := by
  unfold dirLots dirTradeSum
  induction (ts.filter fun t => tradeDirection t = dir) with
  | nil => rfl
  | cons t l ih =>
    show t.volume + lotSum _ = t.volume + _
    rw [ih]
    rfl

theorem dirTradeSum_perm {l l' : List Trade} (h : l.Perm l') (dir : String) :
    dirTradeSum l dir = dirTradeSum l' dir := by
  unfold dirTradeSum
  exact ((h.filter _).map _).sum_eq

theorem filter_tradeKey_dir (ts : List Trade) (k dir : String) :
    ((ts.filter fun t => tradeKey t = k).filter fun t => tradeDirection t = dir)
      = ts.filter fun t => tradeKey t = k ∧ tradeDirection t = dir := by
  rw [List.filter_filter]
  apply List.filter_congr
  intro t _
  by_cases h1 : tradeKey t = k <;> by_cases h2 : tradeDirection t = dir <;>
    simp [h1, h2]

theorem tradeDirVolumeSum_eq (trades : List Trade) (k dir : String) :
    tradeDirVolumeSum trades k dir
      = dirTradeSum (trades.filter fun t => tradeKey t = k) dir := by
  unfold tradeDirVolumeSum dirTradeSum
  rw [filter_tradeKey_dir]

/-- One T0 group with positive volumes: the buy/sell volume sums, the
matched minimum, and the pending absolute difference. -/
theorem computeT0_spec (ts : List Trade) (hpos : ∀ t ∈ ts, 0 < t.volume) :
    (computeT0 ts).t0_buy_volume = dirTradeSum ts "BUY"
    ∧ (computeT0 ts).t0_sell_volume = dirTradeSum ts "SELL"
    ∧ (computeT0 ts).t0_completed
        = min (dirTradeSum ts "BUY") (dirTradeSum ts "SELL")
    ∧ (computeT0 ts).t0_pending
        = |dirTradeSum ts "BUY" - dirTradeSum ts "SELL"| := by
  have hperm := sortByTime_perm ts
  have hB := dirTradeSum_perm hperm "BUY"
  have hS := dirTradeSum_perm hperm "SELL"
  have hmem : ∀ dir, ∀ x ∈ dirLots (sortByTime ts) dir, 0 < x.volume := by
    intro dir x hx
    unfold dirLots at hx
    rcases List.mem_map.mp hx with ⟨t, ht, rfl⟩
    exact hpos t (hperm.mem_iff.mp (List.mem_filter.mp ht).1)
  refine ⟨?_, ?_, ?_, ?_⟩
  · show (collectLots (sortByTime ts)).2.2.1 = _
    rw [collectLots_spec]
    exact hB
  · show (collectLots (sortByTime ts)).2.2.2 = _
    rw [collectLots_spec]
    exact hS
  · show (matchT0 (collectLots (sortByTime ts)).1
      (collectLots (sortByTime ts)).2.1).1 = _
    rw [collectLots_spec]
    show (matchT0 (dirLots (sortByTime ts) "BUY")
      (dirLots (sortByTime ts) "SELL")).1 = _
    rw [matchT0_fst _ _ (hmem "BUY") (hmem "SELL"), lotSum_dirLots,
      lotSum_dirLots, hB, hS]
  · show pyabs ((collectLots (sortByTime ts)).2.2.1
      - (collectLots (sortByTime ts)).2.2.2) = _
    rw [collectLots_spec]
    show pyabs (dirTradeSum (sortByTime ts) "BUY"
      - dirTradeSum (sortByTime ts) "SELL") = _
    rw [pyabs_eq_abs, hB, hS]

/-! ### Claim theorems: T0 matcher -/

/-- Claim C2 (amended): for trades with positive volumes, every
`T0Position` produced by `calculate_t0` satisfies
`t0_completed = min(t0_buy_volume, t0_sell_volume)` and
`t0_pending = |t0_buy_volume - t0_sell_volume|`, where the buy/sell
volumes are the per-key sums of BUY and SELL trade volumes. -/
theorem calculateT0_conservation (trades : List Trade) (k : String)
    (pos : T0Position) (hpos : ∀ t ∈ trades, 0 < t.volume)
    (h : (calculateT0 trades).lookup k = some pos) :
    pos.t0_completed = min pos.t0_buy_volume pos.t0_sell_volume
    ∧ pos.t0_pending = |pos.t0_buy_volume - pos.t0_sell_volume|
    ∧ pos.t0_buy_volume = tradeDirVolumeSum trades k "BUY"
    ∧ pos.t0_sell_volume = tradeDirVolumeSum trades k "SELL" := by
  rw [calculateT0_lookup] at h
  split_ifs at h with hf
  have hpc := Option.some.inj h
  subst hpc
  have hposf : ∀ t ∈ trades.filter fun t => tradeKey t = k, 0 < t.volume :=
    fun t ht => hpos t (List.mem_filter.mp ht).1
  obtain ⟨c1, c2, c3, c4⟩ := computeT0_spec _ hposf
  rw [tradeDirVolumeSum_eq, tradeDirVolumeSum_eq]
  exact ⟨by rw [c3, c1, c2], by rw [c4, c1, c2], c1, c2⟩

/-- Claim C4 (amended): `calculate_t0` derives its result from trades
alone — a key appears in the result exactly when some trade carries that
key; in particular, with an empty trades list the result is empty no
matter what orders exist, and no order-based fallback estimate is
produced. -/
theorem calculateT0_keys (trades : List Trade) (k : String) :
    ((calculateT0 trades).lookup k).isSome = true
      ↔ ∃ t ∈ trades, tradeKey t = k := by
  rw [calculateT0_lookup]
  split_ifs with hf
  · simp only [Option.isSome_none, Bool.false_eq_true, false_iff]
    rintro ⟨t, ht, hkt⟩
    have hmem : t ∈ trades.filter fun t => tradeKey t = k :=
      List.mem_filter.mpr ⟨ht, decide_eq_true hkt⟩
    rw [hf] at hmem
    exact absurd hmem (List.not_mem_nil t)
  · simp only [Option.isSome_some, true_iff]
    obtain ⟨t, ht⟩ := List.exists_mem_of_ne_nil _ hf
    have hm := List.mem_filter.mp ht
    exact ⟨t, hm.1, of_decide_eq_true hm.2⟩

/-! ### Risk evaluator lemmas -/

theorem mem_foldr_append {α β : Type} (g : α → List β) :
    ∀ (l : List α) (b : β),
    (b ∈ l.foldr (fun e acc => g e ++ acc) []) ↔ ∃ e ∈ l, b ∈ g e := by
  intro l b
  induction l with
  | nil => simp
  | cons e l ih =>
    simp only [List.foldr_cons, List.mem_append, ih, List.mem_cons]
    constructor
    · rintro (h | ⟨u, hu, hb⟩)
      · exact ⟨e, Or.inl rfl, h⟩
      · exact ⟨u, Or.inr hu, hb⟩
    · rintro ⟨u, rfl | hu, hb⟩
      · exact Or.inl hb
      · exact Or.inr ⟨u, hu, hb⟩

theorem concAlert_code (params : RiskParams) (total : ℚ) (e : String × ℚ) :
    ∀ a ∈ concAlert params total e, a.code = "RISK_CONCENTRATION_EXCEEDED" := by
  intro a ha
  unfold concAlert at ha
  split_ifs at ha
  · rw [List.mem_singleton] at ha
    subst ha
    rfl
  · exact absurd ha (List.not_mem_nil a)

theorem checkConcentration_code (params : RiskParams) (ps : List Position) :
    ∀ a ∈ checkConcentration params ps,
      a.code = "RISK_CONCENTRATION_EXCEEDED" := by
  intro a ha
  unfold checkConcentration at ha
  split_ifs at ha
  · exact absurd ha (List.not_mem_nil a)
  · rcases (mem_foldr_append _ _ _).mp ha with ⟨e, _, hb⟩
    exact concAlert_code params _ e a hb

theorem plAlert_code (params : RiskParams) (p : Position) :
    ∀ a ∈ plAlert params p,
      a.code = "RISK_STOP_LOSS" ∨ a.code = "RISK_TAKE_PROFIT" := by
  intro a ha
  unfold plAlert at ha
  split_ifs at ha
  · rw [List.mem_singleton] at ha
    subst ha
    exact Or.inl rfl
  · rw [List.mem_singleton] at ha
    subst ha
    exact Or.inr rfl
  · exact absurd ha (List.not_mem_nil a)

theorem checkProfitLoss_code (params : RiskParams) (ps : List Position) :
    ∀ a ∈ checkProfitLoss params ps,
      a.code = "RISK_STOP_LOSS" ∨ a.code = "RISK_TAKE_PROFIT" := by
  intro a ha
  unfold checkProfitLoss at ha
  rcases (mem_foldr_append _ _ _).mp ha with ⟨p, _, hb⟩
  exact plAlert_code params p a hb

theorem checkTotalPosition_code (params : RiskParams) (ps : List Position) :
    ∀ a ∈ checkTotalPosition params ps,
      a.code = "RISK_TOTAL_POSITION_EXCEEDED"
        ∨ a.code = "RISK_TOTAL_POSITION_HIGH" := by
  intro a ha
  unfold checkTotalPosition at ha
  split_ifs at ha
  · rw [List.mem_singleton] at ha
    subst ha
    exact Or.inl rfl
  · rw [List.mem_singleton] at ha
    subst ha
    exact Or.inr rfl
  · exact absurd ha (List.not_mem_nil a)

/-- Only the total-position check contributes total-position alert codes to
the full `check` output. -/
theorem totalPositionAlerts_check (params : RiskParams) (ps : List Position) :
    totalPositionAlerts (check params ps) = checkTotalPosition params ps := by
  unfold totalPositionAlerts check
  rw [List.filter_append, List.filter_append]
  have h1 : (checkTotalPosition params ps).filter
      (fun a => a.code = "RISK_TOTAL_POSITION_EXCEEDED"
        ∨ a.code = "RISK_TOTAL_POSITION_HIGH") = checkTotalPosition params ps :=
    List.filter_eq_self.mpr fun a ha =>
      decide_eq_true (checkTotalPosition_code params ps a ha)
  have h2 : (checkConcentration params ps).filter
      (fun a => a.code = "RISK_TOTAL_POSITION_EXCEEDED"
        ∨ a.code = "RISK_TOTAL_POSITION_HIGH") = [] := by
    rw [List.filter_eq_nil_iff]
    intro a ha
    have hc := checkConcentration_code params ps a ha
    simp [hc]
  have h3 : (checkProfitLoss params ps).filter
      (fun a => a.code = "RISK_TOTAL_POSITION_EXCEEDED"
        ∨ a.code = "RISK_TOTAL_POSITION_HIGH") = [] := by
    rw [List.filter_eq_nil_iff]
    intro a ha
    rcases checkProfitLoss_code params ps a ha with hc | hc <;> simp [hc]
  rw [h1, h2, h3, List.append_nil, List.append_nil]

/-! ### Claim theorem: risk thresholds -/

/-- Claim C5 (amended): with a nonnegative `max_total_position`, the
total-exposure alerts of `RiskChecker.check` obey the strict boundaries:
above the limit exactly one ERROR and no WARNING; between `0.8 × limit`
(exclusive) and the limit (inclusive) exactly one WARNING and no ERROR;
exactly at the limit no ERROR; at or below `0.8 × limit` no alert at
all. -/
theorem check_total_position_boundaries (params : RiskParams)
    (positions : List Position) (hmax : 0 ≤ params.max_total_position) :
    (params.max_total_position < totalMarketValue positions →
      (totalPositionAlerts (check params positions)).map (·.level) = ["ERROR"])
    ∧ (params.max_total_position * (8/10) < totalMarketValue positions
        ∧ totalMarketValue positions ≤ params.max_total_position →
      (totalPositionAlerts (check params positions)).map (·.level) = ["WARNING"])
    ∧ (totalMarketValue positions = params.max_total_position →
      "ERROR" ∉ (totalPositionAlerts (check params positions)).map (·.level))
    ∧ (totalMarketValue positions ≤ params.max_total_position * (8/10) →
      totalPositionAlerts (check params positions) = []) := by
  rw [totalPositionAlerts_check]
  unfold checkTotalPosition
  refine ⟨?_, ?_, ?_, ?_⟩
  · intro hgt
    rw [if_pos hgt]
    rfl
  · rintro ⟨h1, h2⟩
    rw [if_neg (not_lt.mpr h2), if_pos h1]
    rfl
  · intro heq
    rw [if_neg (by rw [heq]; exact lt_irrefl _)]
    split_ifs with h2
    · simp
    · simp
  · intro hle
    have hle2 : totalMarketValue positions ≤ params.max_total_position := by
      linarith
    rw [if_neg (not_lt.mpr hle2), if_neg (not_lt.mpr hle)]

/-! ### Signal generator lemmas -/

theorem mkPendingSignal_priority (params : T0Params) (pos : T0Position)
    (cp : ℚ) (now : String) :
    (mkPendingSignal params pos cp now).priority = 2 := by
  unfold mkPendingSignal
  split_ifs <;> rfl

theorem mkPendingSignal_volume (params : T0Params) (pos : T0Position)
    (cp : ℚ) (now : String) :
    (mkPendingSignal params pos cp now).target_volume = pos.t0_pending := by
  unfold mkPendingSignal
  split_ifs <;> rfl

theorem mkPendingSignal_sell (params : T0Params) (pos : T0Position)
    (cp : ℚ) (now : String) (h : pos.t0_sell_volume < pos.t0_buy_volume) :
    (mkPendingSignal params pos cp now).signal_type = "SELL"
    ∧ (mkPendingSignal params pos cp now).target_price
        = cp * (1 + params.sell_premium) := by
  unfold mkPendingSignal
  rw [if_pos h]
  exact ⟨rfl, rfl⟩

theorem mkPendingSignal_buy (params : T0Params) (pos : T0Position)
    (cp : ℚ) (now : String) (h : ¬ pos.t0_sell_volume < pos.t0_buy_volume) :
    (mkPendingSignal params pos cp now).signal_type = "BUY"
    ∧ (mkPendingSignal params pos cp now).target_price
        = cp * (1 - params.buy_discount) := by
  unfold mkPendingSignal
  rw [if_neg h]
  exact ⟨rfl, rfl⟩

theorem mkBaseSignals_priority (params : T0Params) (b : Position)
    (t0p : T0Position) (cp : ℚ) (now : String) :
    ∀ sg ∈ mkBaseSignals params b t0p cp now, sg.priority = 3 := by
  intro sg hsg
  unfold mkBaseSignals at hsg
  split_ifs at hsg
  · rw [List.mem_singleton] at hsg
    subst hsg
    rfl
  · exact absurd hsg (List.not_mem_nil sg)
  · exact absurd hsg (List.not_mem_nil sg)

theorem entrySignals_priority (params : T0Params) (prices : List (String × ℚ))
    (positions : List (String × Position)) (now : String) (pos : T0Position) :
    ∀ sg ∈ entrySignals params prices positions now pos,
      sg.priority = 2 ∨ sg.priority = 3 := by
  intro sg hsg
  unfold entrySignals at hsg
  rcases List.mem_append.mp hsg with h | h
  · split_ifs at h
    · rw [List.mem_singleton] at h
      subst h
      exact Or.inl (mkPendingSignal_priority params pos _ now)
    · exact absurd h (List.not_mem_nil sg)
  · split_ifs at h
    · rcases hl : positions.lookup
        (mkKey pos.stock_code pos.account_id pos.strategy) with _ | basePos
      · rw [hl] at h
        exact absurd h (List.not_mem_nil sg)
      · rw [hl] at h
        exact Or.inr (mkBaseSignals_priority params basePos pos _ now sg h)
    · exact absurd h (List.not_mem_nil sg)

theorem buildSignals_priority (params : T0Params) (prices : List (String × ℚ))
    (positions : List (String × Position)) (now : String)
    (t0 : List (String × T0Position)) :
    ∀ sg ∈ buildSignals params prices positions now t0,
      sg.priority = 2 ∨ sg.priority = 3 := by
  intro sg hsg
  unfold buildSignals at hsg
  rcases (mem_foldr_append _ _ _).mp hsg with ⟨e, _, hb⟩
  exact entrySignals_priority params prices positions now e.2 sg hb

theorem insertByPriority_cons (s u : T0Signal) (us : List T0Signal) :
    insertByPriority s (u :: us)
      = if u.priority < s.priority then u :: insertByPriority s us
        else s :: u :: us := rfl

theorem insertByPriority_skip (s : T0Signal) :
    ∀ (l1 l2 : List T0Signal), (∀ u ∈ l1, u.priority < s.priority) →
    insertByPriority s (l1 ++ l2) = l1 ++ insertByPriority s l2 := by
  intro l1
  induction l1 with
  | nil => intro l2 _; rfl
  | cons u us ih =>
    intro l2 h
    rw [List.cons_append, insertByPriority_cons, if_pos (h u (by simp)),
      ih l2 fun v hv => h v (by simp [hv]), List.cons_append]

theorem insertByPriority_front (s : T0Signal) :
    ∀ l : List T0Signal, (∀ u ∈ l, ¬ u.priority < s.priority) →
    insertByPriority s l = s :: l := by
  intro l h
  cases l with
  | nil => rfl
  | cons u us =>
    unfold insertByPriority
    rw [if_neg (h u (by simp))]

/-- With priorities restricted to 2 and 3, the stable ascending sort
groups the priority-2 signals first, each block in original order. -/
theorem sortByPriority_two_three :
    ∀ l : List T0Signal, (∀ s ∈ l, s.priority = 2 ∨ s.priority = 3) →
    sortByPriority l
      = (l.filter fun s => s.priority = 2)
          ++ (l.filter fun s => ¬ s.priority = 2) := by
  intro l
  induction l with
  | nil => intro _; rfl
  | cons x l ih =>
    intro h
    have hl : ∀ s ∈ l, s.priority = 2 ∨ s.priority = 3 :=
      fun s hs => h s (by simp [hs])
    have hsort : sortByPriority (x :: l)
        = insertByPriority x (sortByPriority l) := rfl
    rw [hsort, ih hl]
    have hA : ∀ u ∈ l.filter fun s => s.priority = 2, u.priority = 2 :=
      fun u hu => of_decide_eq_true (List.mem_filter.mp hu).2
    have hB : ∀ u ∈ l.filter fun s => ¬ s.priority = 2, u.priority = 3 := by
      intro u hu
      have hm := List.mem_filter.mp hu
      rcases hl u hm.1 with h2 | h3
      · exact absurd h2 (of_decide_eq_true hm.2)
      · exact h3
    rcases h x (by simp) with hx | hx
    · -- priority-2 head goes to the front of the sorted list
      have hfront : insertByPriority x
          ((l.filter fun s => s.priority = 2)
            ++ (l.filter fun s => ¬ s.priority = 2))
          = x :: ((l.filter fun s => s.priority = 2)
            ++ (l.filter fun s => ¬ s.priority = 2)) := by
        apply insertByPriority_front
        intro u hu
        rcases List.mem_append.mp hu with h2 | h3
        · rw [hA u h2, hx]
          omega
        · rw [hB u h3, hx]
          omega
      rw [hfront, List.filter_cons, List.filter_cons]
      have hd1 : decide (x.priority = 2) = true := decide_eq_true hx
      have hd2 : decide (¬ x.priority = 2) = false :=
        decide_eq_false fun hn => hn hx
      rw [hd1, if_pos rfl]
      rw [hd2]
      simp only [Bool.false_eq_true, if_false, List.cons_append]
    · -- priority-3 head is inserted at the front of the priority-3 block
      have hskip : insertByPriority x
          ((l.filter fun s => s.priority = 2)
            ++ (l.filter fun s => ¬ s.priority = 2))
          = (l.filter fun s => s.priority = 2)
            ++ insertByPriority x (l.filter fun s => ¬ s.priority = 2) := by
        apply insertByPriority_skip
        intro u hu
        rw [hA u hu, hx]
        omega
      have hfront : insertByPriority x (l.filter fun s => ¬ s.priority = 2)
          = x :: (l.filter fun s => ¬ s.priority = 2) := by
        apply insertByPriority_front
        intro u hu
        rw [hB u hu, hx]
        omega
      have hx2 : ¬ x.priority = 2 := by rw [hx]; decide
      rw [hskip, hfront, List.filter_cons, List.filter_cons]
      have hd1 : decide (x.priority = 2) = false := decide_eq_false hx2
      have hd2 : decide (¬ x.priority = 2) = true := decide_eq_true hx2
      rw [hd1, hd2]
      simp only [Bool.false_eq_true, if_false, eq_self_iff_true, if_true]

theorem filter2_entrySignals (params : T0Params) (prices : List (String × ℚ))
    (positions : List (String × Position)) (now : String) (pos : T0Position) :
    (entrySignals params prices positions now pos).filter
        (fun s => s.priority = 2)
      = if 0 < pos.t0_pending then
          [mkPendingSignal params pos ((lookupPrice prices pos.stock_code).getD 0) now]
        else [] := by
  unfold entrySignals
  rw [List.filter_append]
  have hbase : ((if positions ≠ [] then
      match positions.lookup (mkKey pos.stock_code pos.account_id pos.strategy) with
      | some basePos =>
        mkBaseSignals params basePos pos ((lookupPrice prices pos.stock_code).getD 0) now
      | none => []
     else []).filter (fun s => s.priority = 2)) = [] := by
    rw [List.filter_eq_nil_iff]
    intro a ha
    split_ifs at ha
    · rcases hl : positions.lookup
        (mkKey pos.stock_code pos.account_id pos.strategy) with _ | basePos
      · rw [hl] at ha
        exact absurd ha (List.not_mem_nil a)
      · rw [hl] at ha
        have := mkBaseSignals_priority params basePos pos _ now a ha
        simp [this]
    · exact absurd ha (List.not_mem_nil a)
  rw [hbase, List.append_nil]
  split_ifs with hp
  · rw [List.filter_cons]
    have : decide ((mkPendingSignal params pos
        ((lookupPrice prices pos.stock_code).getD 0) now).priority = 2) = true :=
      decide_eq_true (mkPendingSignal_priority params pos _ now)
    rw [this]
    simp
  · rfl

theorem filter2_buildSignals (params : T0Params) (prices : List (String × ℚ))
    (positions : List (String × Position)) (now : String) :
    ∀ t0 : List (String × T0Position),
    (buildSignals params prices positions now t0).filter
        (fun s => s.priority = 2)
      = (t0.filter fun e => 0 < e.2.t0_pending).map
          (fun e => mkPendingSignal params e.2
            ((lookupPrice prices e.2.stock_code).getD 0) now) := by
  intro t0
  induction t0 with
  | nil => rfl
  | cons e t0 ih =>
    show ((entrySignals params prices positions now e.2
      ++ buildSignals params prices positions now t0).filter
        (fun s => s.priority = 2)) = _
    rw [List.filter_append, filter2_entrySignals, ih, List.filter_cons]
    by_cases hp : 0 < e.2.t0_pending
    · rw [if_pos hp, decide_eq_true hp]
      simp
    · rw [if_neg hp, decide_eq_false hp]
      simp

theorem filter_filter2_self (l : List T0Signal) :
    ((l.filter fun s => s.priority = 2).filter fun s => s.priority = 2)
      = l.filter fun s => s.priority = 2 :=
  List.filter_eq_self.mpr fun _ ha => (List.mem_filter.mp ha).2

theorem filter_filter2_not (l : List T0Signal) :
    ((l.filter fun s => ¬ s.priority = 2).filter fun s => s.priority = 2)
      = [] := by
  rw [List.filter_eq_nil_iff]
  intro a ha
  have := of_decide_eq_true (List.mem_filter.mp ha).2
  simp [this]

/-! ### Claim theorem: pending-pairing signals -/

/-- Claim C9 (confirmed): the priority-2 signals of `generate_signals` are
exactly one pending-pairing signal per `t0_positions` entry with
`t0_pending > 0`, in dict order, built by `_generate_pending_signals`:
target volume `t0_pending`, a SELL at `price × (1 + sell_premium)` when
buys exceed sells and otherwise a BUY at `price × (1 − buy_discount)`;
entries with `t0_pending = 0` contribute no pending-pairing signal. -/
theorem generateSignals_pending (params : T0Params)
    (t0 : List (String × T0Position)) (prices : List (String × ℚ))
    (positions : List (String × Position)) (now : String) :
    ((generateSignals params t0 prices positions now).filter
        (fun s => s.priority = 2)
      = (t0.filter fun e => 0 < e.2.t0_pending).map
          (fun e => mkPendingSignal params e.2
            ((lookupPrice prices e.2.stock_code).getD 0) now))
    ∧ (∀ pos : T0Position, ∀ cp : ℚ,
        (mkPendingSignal params pos cp now).priority = 2
        ∧ (mkPendingSignal params pos cp now).target_volume = pos.t0_pending
        ∧ (pos.t0_sell_volume < pos.t0_buy_volume →
            (mkPendingSignal params pos cp now).signal_type = "SELL"
            ∧ (mkPendingSignal params pos cp now).target_price
                = cp * (1 + params.sell_premium))
        ∧ (¬ pos.t0_sell_volume < pos.t0_buy_volume →
            (mkPendingSignal params pos cp now).signal_type = "BUY"
            ∧ (mkPendingSignal params pos cp now).target_price
                = cp * (1 - params.buy_discount))) := by
  constructor
  · unfold generateSignals
    rw [sortByPriority_two_three _
      (buildSignals_priority params prices positions now t0),
      List.filter_append, filter_filter2_self, filter_filter2_not,
      List.append_nil]
    exact filter2_buildSignals params prices positions now t0
  · intro pos cp
    exact ⟨mkPendingSignal_priority params pos cp now,
      mkPendingSignal_volume params pos cp now,
      fun h => mkPendingSignal_sell params pos cp now h,
      fun h => mkPendingSignal_buy params pos cp now h⟩

/-! ### Clock-independence lemmas for the signal generator -/

theorem stripTime_mkPending (params : T0Params) (pos : T0Position) (cp : ℚ)
    (now1 now2 : String) :
    stripTime (mkPendingSignal params pos cp now1)
      = stripTime (mkPendingSignal params pos cp now2) := by
  unfold mkPendingSignal stripTime
  split_ifs <;> rfl

theorem stripTime_mkBase (params : T0Params) (b : Position) (t0p : T0Position)
    (cp : ℚ) (now1 now2 : String) :
    (mkBaseSignals params b t0p cp now1).map stripTime
      = (mkBaseSignals params b t0p cp now2).map stripTime := by
  unfold mkBaseSignals stripTime
  split_ifs <;> rfl

theorem stripTime_entry (params : T0Params) (prices : List (String × ℚ))
    (positions : List (String × Position)) (pos : T0Position)
    (now1 now2 : String) :
    (entrySignals params prices positions now1 pos).map stripTime
      = (entrySignals params prices positions now2 pos).map stripTime := by
  unfold entrySignals
  rw [List.map_append, List.map_append]
  congr 1
  · split_ifs with hp
    · rw [List.map_singleton, List.map_singleton,
        stripTime_mkPending params pos _ now1 now2]
    · rfl
  · split_ifs with hp
    · rcases positions.lookup (mkKey pos.stock_code pos.account_id pos.strategy)
        with _ | basePos
      · rfl
      · exact stripTime_mkBase params basePos pos _ now1 now2
    · rfl

theorem stripTime_build (params : T0Params) (prices : List (String × ℚ))
    (positions : List (String × Position)) (now1 now2 : String) :
    ∀ t0 : List (String × T0Position),
    (buildSignals params prices positions now1 t0).map stripTime
      = (buildSignals params prices positions now2 t0).map stripTime := by
  intro t0
  induction t0 with
  | nil => rfl
  | cons e t0 ih =>
    show ((entrySignals params prices positions now1 e.2
        ++ buildSignals params prices positions now1 t0).map stripTime)
      = ((entrySignals params prices positions now2 e.2
        ++ buildSignals params prices positions now2 t0).map stripTime)
    rw [List.map_append, List.map_append,
      stripTime_entry params prices positions e.2 now1 now2, ih]

theorem stripTime_insert (s : T0Signal) :
    ∀ l : List T0Signal,
    (insertByPriority s l).map stripTime
      = insertByPriority (stripTime s) (l.map stripTime) := by
  intro l
  induction l with
  | nil => rfl
  | cons u us ih =>
    rw [insertByPriority_cons, List.map_cons, insertByPriority_cons]
    simp only [show (stripTime u).priority = u.priority from rfl,
      show (stripTime s).priority = s.priority from rfl]
    by_cases h : u.priority < s.priority
    · rw [if_pos h, if_pos h, List.map_cons, ih]
    · rw [if_neg h, if_neg h, List.map_cons, List.map_cons]

theorem stripTime_sort :
    ∀ l : List T0Signal,
    (sortByPriority l).map stripTime = sortByPriority (l.map stripTime) := by
  intro l
  induction l with
  | nil => rfl
  | cons s l ih =>
    show (insertByPriority s (sortByPriority l)).map stripTime = _
    rw [stripTime_insert, ih]
    rfl

/-! ### Claim theorem: signal generation and the clock -/

/-- Claim C3 (amended): `generate_signals` is deterministic in its inputs
and the ambient clock; two calls with identical `t0_positions`, `prices`,
`positions` and parameters, made at possibly different times, return
signal lists identical in order and in every field except `created_at`,
which records the call time. -/
theorem generateSignals_pure_mod_time (params : T0Params)
    (t0 : List (String × T0Position)) (prices : List (String × ℚ))
    (positions : List (String × Position)) (now1 now2 : String) :
    (generateSignals params t0 prices positions now1).map stripTime
      = (generateSignals params t0 prices positions now2).map stripTime := by
  unfold generateSignals
  rw [stripTime_sort, stripTime_sort,
    stripTime_build params prices positions now1 now2 t0]

/-! ### Division-fault freedom: the checked semantics never faults -/

theorem mapOpt_eq_map {α β : Type} (g : α → Option β) (h : α → β) :
    ∀ l : List α, (∀ e ∈ l, g e = some (h e)) →
    mapOpt g l = some (l.map h) := by
  intro l
  induction l with
  | nil => intro _; rfl
  | cons x xs ih =>
    intro hx
    show (g x).bind _ = _
    rw [hx x (by simp)]
    show (mapOpt g xs).bind _ = _
    rw [ih fun e he => hx e (by simp [he])]
    rfl

theorem foldlOpt_eq_foldl {α β : Type} (g : β → α → Option β) (f : β → α → β)
    (hg : ∀ b a, g b a = some (f b a)) :
    ∀ (l : List α) (init : β), foldlOpt g init l = some (l.foldl f init) := by
  intro l
  induction l with
  | nil => intro init; rfl
  | cons x xs ih =>
    intro init
    show (g init x).bind _ = _
    rw [hg init x]
    exact ih (f init x)

theorem foldrOpt_eq_foldr {α β : Type} (g : α → β → Option β) (f : α → β → β)
    (hg : ∀ a b, g a b = some (f a b)) :
    ∀ (l : List α) (init : β), foldrOpt g init l = some (l.foldr f init) := by
  intro l
  induction l with
  | nil => intro init; rfl
  | cons x xs ih =>
    intro init
    show (foldrOpt g init xs).bind _ = _
    rw [ih init]
    show g x (xs.foldr f init) = _
    rw [hg x (xs.foldr f init), List.foldr_cons]

theorem applyTradeDirChecked_eq (p : Position) (t : Trade) :
    applyTradeDirChecked p t = some (applyTradeDir p t) := by
  unfold applyTradeDirChecked applyTradeDir cdiv
  split_ifs with h1 h2 h3
  · exact absurd (Int.cast_eq_zero.mp h3) (by omega)
  · rfl
  · rfl
  · rfl
  · rfl

theorem applyTradeChecked_eq (prices : List (String × ℚ)) (p : Position)
    (t : Trade) :
    applyTradeChecked prices p t = some (applyTrade prices p t) := by
  unfold applyTradeChecked applyTrade
  rw [applyTradeDirChecked_eq]
  rfl

theorem setPosChecked_eq (m : List (String × Position)) (k : String)
    (fc : Position → Option Position) (f : Position → Position)
    (init : Position) (hf : ∀ q, fc q = some (f q)) :
    setPosChecked m k fc init = some (setPos m k f init) := by
  unfold setPosChecked setPos upsert
  split_ifs with hs
  · exact mapOpt_eq_map _ _ m fun e _ => by
      by_cases he : e.1 = k
      · rw [if_pos he, if_pos he, hf e.2]
        rfl
      · rw [if_neg he, if_neg he]
  · rw [hf init]
    rfl

theorem foldTradesChecked_eq (prices : List (String × ℚ))
    (m : List (String × Position)) (trades : List Trade) :
    foldTradesChecked prices m trades = some (foldTrades prices m trades) := by
  unfold foldTradesChecked foldTrades
  exact foldlOpt_eq_foldl _ _
    (fun b a => setPosChecked_eq b (tradeKey a) _ _ _
      (fun q => applyTradeChecked_eq prices q a))
    trades m

theorem finalizePLChecked_eq (p : Position) :
    finalizePLChecked p = some (finalizePL p) := by
  unfold finalizePLChecked finalizePL cdiv
  split_ifs with h1 h2
  · exact absurd h2 (ne_of_gt h1.2)
  · rfl
  · rfl

theorem finalizePosChecked_eq (p : Position) :
    finalizePosChecked p = some (finalizePos p) := by
  unfold finalizePosChecked finalizePos
  rw [finalizePLChecked_eq]
  rfl

theorem calculateChecked_eq (trades : List Trade) (orders : List Order)
    (prices : List (String × ℚ)) :
    calculateChecked trades orders prices
      = some (calculate trades orders prices) := by
  unfold calculateChecked calculate
  rw [foldTradesChecked_eq]
  show mapOpt _ (foldOrders (foldTrades prices [] trades) orders) = _
  exact mapOpt_eq_map _ _ _ fun e _ => by rw [finalizePosChecked_eq]; rfl

theorem getSummaryChecked_eq (positions : List (String × Position)) :
    getSummaryChecked positions = some (getSummary positions) := by
  unfold getSummaryChecked getSummary cdiv
  split_ifs with h1 h2 h3
  · rfl
  · exact absurd h3 (ne_of_gt h2)
  · rfl
  · rfl

theorem checkTotalPositionChecked_eq (params : RiskParams)
    (positions : List Position) :
    checkTotalPositionChecked params positions
      = some (checkTotalPosition params positions) := by
  unfold checkTotalPositionChecked checkTotalPosition cdiv
  split_ifs with h1 h2 h3
  · rfl
  · -- in the WARNING branch the limit is strictly positive
    have hpos : 0 < params.max_total_position := by linarith [not_lt.mp h1]
    exact absurd h3 (ne_of_gt hpos)
  · rfl
  · rfl

theorem checkConcentrationChecked_eq (params : RiskParams)
    (positions : List Position) :
    checkConcentrationChecked params positions
      = some (checkConcentration params positions) := by
  unfold checkConcentrationChecked checkConcentration
  split_ifs with h0
  · rfl
  · refine foldrOpt_eq_foldr _ _ ?_ (stockValues positions) []
    intro e acc
    show (cdiv e.2 (totalMarketValue positions)).bind _ = _
    unfold cdiv
    rw [if_neg h0]
    show some (concAlert params (totalMarketValue positions) e ++ acc) = _
    rfl

theorem checkChecked_eq (params : RiskParams) (positions : List Position) :
    checkChecked params positions = some (check params positions) := by
  unfold checkChecked check
  rw [checkTotalPositionChecked_eq]
  show (checkConcentrationChecked params positions).bind _ = _
  rw [checkConcentrationChecked_eq]
  rfl

/-! ### Claim theorem: no division-by-zero fault -/

/-- Claim C10 (confirmed): with every division of the core instrumented to
fault on a zero denominator, `calculate`, `get_summary` and
`RiskChecker.check` always complete — each guard establishes its
denominator before the division is evaluated, so no division-by-zero
arithmetic fault can occur. -/
theorem no_division_fault (trades : List Trade) (orders : List Order)
    (prices : List (String × ℚ)) (posDict : List (String × Position))
    (params : RiskParams) (positions : List Position) :
    calculateChecked trades orders prices
        = some (calculate trades orders prices)
    ∧ getSummaryChecked posDict = some (getSummary posDict)
    ∧ checkChecked params positions = some (check params positions) :=
  ⟨calculateChecked_eq trades orders prices,
    getSummaryChecked_eq posDict,
    checkChecked_eq params positions⟩

/-! ### Evaluation helpers for the concrete inputs -/

theorem parseVolume_100 : parseVolume "100" = 100 := by decide

theorem key_append_ex :
    "600519" ++ "_" ++ "ACC1" ++ "_" ++ "DEFAULT" = "600519_ACC1_DEFAULT" := by
  decide

theorem key_append_coll1 : "A_B" ++ "_" ++ "C" ++ "_" ++ "D" = "A_B_C_D" := by
  decide

theorem key_append_coll2 : "A" ++ "_" ++ "B" ++ "_" ++ "C_D" = "A_B_C_D" := by
  decide

theorem beq_collision_stock : ("A_B" == "A") = false := by decide

/-! ### Witnesses and counterexamples -/

/-- Claim C1, counterexample to the claim as stated: with a BUY order of
100 shares, a SELL order of 40 and no trades, the order-volume estimate
`Σ buy − Σ sell = 60` is positive, yet the recorded position has
`total_volume = 0`: `calculate` performs no order-based estimate. -/
theorem calculate_no_trades_counterexample :
    (calculate [] [oBuy100, oSell40] []).lookup exKey = some c1Pos
    ∧ orderVolumeSum [oBuy100, oSell40] exKey "BUY"
        - orderVolumeSum [oBuy100, oSell40] exKey "SELL" = 60
    ∧ c1Pos.total_volume = 0 := by
  exact ⟨rfl, by decide, by decide⟩

/-- Claim C1, witness for the amended theorem at a concrete input. -/
theorem calculate_no_trades_no_estimate_witness :
    (calculate [] [oBuy100, oSell40] []).lookup exKey = some c1Pos
    ∧ c1Pos.total_volume = 0
    ∧ c1Pos.buy_volume = orderVolumeSum [oBuy100, oSell40] exKey "BUY"
    ∧ c1Pos.sell_volume = orderVolumeSum [oBuy100, oSell40] exKey "SELL"
    ∧ orderVolumeSum [oBuy100, oSell40] exKey "BUY" = 100
    ∧ orderVolumeSum [oBuy100, oSell40] exKey "SELL" = 40 := by
  have h : (calculate [] [oBuy100, oSell40] []).lookup exKey = some c1Pos := rfl
  have hc := calculate_no_trades_no_estimate [oBuy100, oSell40] [] exKey c1Pos h
  exact ⟨h, hc.1, hc.2.2.1, hc.2.2.2.1, by decide, by decide⟩

/-- Claim C2, counterexample to the claim as stated: a zero-volume BUY
trade at the head of the sorted buy lots makes the matching loop `break`
immediately, so `t0_completed = 0` even though
`min(t0_buy_volume, t0_sell_volume) = 400`. -/
theorem calculateT0_conservation_counterexample :
    (calculateT0 [tBuyZero, tBuy1000, tSell400]).lookup exKey = some c2BadPos
    ∧ c2BadPos.t0_buy_volume = 1000
    ∧ c2BadPos.t0_sell_volume = 400
    ∧ c2BadPos.t0_completed = 0
    ∧ c2BadPos.t0_completed
        ≠ min c2BadPos.t0_buy_volume c2BadPos.t0_sell_volume := by
  have h1 : c2BadPos.t0_buy_volume = 1000 := by decide
  have h2 : c2BadPos.t0_sell_volume = 400 := by decide
  have h3 : c2BadPos.t0_completed = 0 := by decide
  refine ⟨rfl, h1, h2, h3, ?_⟩
  rw [h1, h2, h3]
  omega

/-- Claim C2, witness for the amended theorem at a concrete input with
positive volumes. -/
theorem calculateT0_conservation_witness :
    (calculateT0 [tBuy1000, tBuy500, tSell400]).lookup exKey = some c2GoodPos
    ∧ c2GoodPos.t0_completed
        = min c2GoodPos.t0_buy_volume c2GoodPos.t0_sell_volume
    ∧ c2GoodPos.t0_pending
        = |c2GoodPos.t0_buy_volume - c2GoodPos.t0_sell_volume|
    ∧ c2GoodPos.t0_buy_volume = 1500
    ∧ c2GoodPos.t0_sell_volume = 400 := by
  have h : (calculateT0 [tBuy1000, tBuy500, tSell400]).lookup exKey
      = some c2GoodPos := rfl
  have hc := calculateT0_conservation [tBuy1000, tBuy500, tSell400] exKey
    c2GoodPos (by decide) h
  exact ⟨h, hc.1, hc.2.1, by decide, by decide⟩

/-- Claim C3, counterexample to the claim as stated: two calls with
identical `t0_positions`, `prices`, `positions` and parameters made at
different wall-clock instants return different signal lists — the
`created_at` field records `datetime.now()` at emission. -/
theorem generateSignals_clock_counterexample :
    generateSignals defaultT0Params exT0Dict [("600519", 10)] [] "t1"
      ≠ generateSignals defaultT0Params exT0Dict [("600519", 10)] [] "t2" := by
  intro h
  have h2 := congrArg (List.map fun s => s.created_at) h
  exact absurd h2 (by decide)

/-- Claim C4, counterexample to the claim as stated: with no trades and a
BUY order of 100 supplied, `calculate_t0` returns the empty mapping — no
entry for the order's key, hence no order-based `t0_completed` fallback. -/
theorem calculateT0_keys_counterexample :
    (calculateT0 ([] : List Trade)).lookup exKey = none
    ∧ orderKey oBuy100 = exKey
    ∧ orderVolumeSum [oBuy100] exKey "BUY" = 100 := by
  refine ⟨rfl, by decide, by decide⟩

/-- Claim C4, witness for the amended theorem at a concrete input. -/
theorem calculateT0_keys_witness :
    (((calculateT0 [tBuy1000]).lookup exKey).isSome = true)
    ∧ (((calculateT0 ([] : List Trade)).lookup exKey).isSome = false) := by
  constructor
  · exact (calculateT0_keys [tBuy1000] exKey).mpr
      ⟨tBuy1000, List.mem_singleton.mpr rfl, by decide⟩
  · rfl

/-- Claim C5, counterexample to the claim as stated: with a negative
limit `max_total_position = −10` and a single position of market value
`−9`, the total `−9` is at or below `0.8 × limit = −8`, yet the strict
`total > limit` comparison fires and an ERROR alert is emitted. -/
theorem check_total_position_counterexample :
    totalMarketValue [mvPos (-9)] = -9
    ∧ ((-9 : ℚ) ≤ negLimitParams.max_total_position * (8/10))
    ∧ (totalPositionAlerts (check negLimitParams [mvPos (-9)])).map (·.level)
        = ["ERROR"] := by
  have ht : totalMarketValue [mvPos (-9)] = -9 := by
    norm_num [totalMarketValue, mvPos, mkPosition]
  refine ⟨ht, by norm_num [negLimitParams], ?_⟩
  rw [totalPositionAlerts_check]
  unfold checkTotalPosition
  rw [ht, if_pos (by norm_num [negLimitParams])]
  rfl

/-- Claim C5, witness for the amended theorem: with the default
(nonnegative) limit of 10 000 000 and a total of 9 000 000, exactly one
WARNING and no ERROR. -/
theorem check_total_position_witness :
    (totalPositionAlerts (check defaultRiskParams [mvPos 9000000])).map
        (·.level) = ["WARNING"] :=
  (check_total_position_boundaries defaultRiskParams [mvPos 9000000]
    (by norm_num [defaultRiskParams])).2.1
    ⟨by norm_num [defaultRiskParams, totalMarketValue, mvPos, mkPosition],
     by norm_num [defaultRiskParams, totalMarketValue, mvPos, mkPosition]⟩

/-- Claim C6, counterexample to the claim as stated: a BUY trade carrying
a negative volume drives `total_volume` below zero — only the SELL branch
clamps at zero. -/
theorem calculate_nonneg_counterexample :
    (calculate [tBuyNeg] [] []).lookup exKey = some c6BadPos
    ∧ c6BadPos.total_volume = -100 := by
  refine ⟨rfl, by decide⟩

/-- Claim C6, witness for the amended theorem at a concrete input with an
oversell (a SELL of 400 against a holding of 1000, plus a frozen BUY
order). -/
theorem calculate_nonneg_available_witness :
    (calculate [tBuy1000, tSell400] [oBuy100] []).lookup exKey = some c6Pos
    ∧ c6Pos.available_volume = max 0 (c6Pos.total_volume - c6Pos.frozen_volume)
    ∧ 0 ≤ c6Pos.total_volume
    ∧ c6Pos.total_volume = 600 := by
  have h : (calculate [tBuy1000, tSell400] [oBuy100] []).lookup exKey
      = some c6Pos := rfl
  have hc := calculate_nonneg_available [tBuy1000, tSell400] [oBuy100] []
    exKey c6Pos h
  refine ⟨h, hc.1, hc.2 (by decide), ?_⟩
  norm_num +decide [c6Pos, calculate, foldTrades, foldOrders, setPos, upsert,
    applyTrade, applyTradeDir, applyTradePrice, tradeKey, mkKey, tradeStrategy,
    tradeDirection, orderKey, orderStrategy, orderDirection, parseVolume_100,
    applyOrder, mkPosition, finalizePos, finalizeMV, finalizePL,
    finalizeAvailable, lookupPrice, List.lookup, pymax, tBuy1000, tSell400,
    oBuy100, exKey, key_append_ex]

/-- Claim C7, witness at a concrete input: two BUY fills 1000 @ 10 and
500 @ 12 give a holding of 1500 at volume-weighted cost 32/3. -/
theorem calculate_all_buy_witness :
    (calculate [tBuy1000, tBuy500] [oBuy100] [("600519", 12)]).lookup exKey
        = some c7Pos
    ∧ c7Pos.total_volume = tradeVolumeSum [tBuy1000, tBuy500] exKey
    ∧ c7Pos.avg_cost = tradeCostSum [tBuy1000, tBuy500] exKey
        / ((tradeVolumeSum [tBuy1000, tBuy500] exKey : Int) : ℚ)
    ∧ c7Pos.total_volume = 1500
    ∧ c7Pos.avg_cost = 32/3 := by
  have h : (calculate [tBuy1000, tBuy500] [oBuy100] [("600519", 12)]).lookup
      exKey = some c7Pos := rfl
  have hc := calculate_all_buy [tBuy1000, tBuy500] [oBuy100] [("600519", 12)]
    exKey c7Pos (by decide) h
  refine ⟨h, hc.1, hc.2, ?_, ?_⟩ <;>
    norm_num +decide [c7Pos, calculate, foldTrades, foldOrders, setPos, upsert,
      applyTrade, applyTradeDir, applyTradePrice, tradeKey, mkKey,
      tradeStrategy, tradeDirection, orderKey, orderStrategy, orderDirection,
      parseVolume_100, applyOrder, mkPosition, finalizePos, finalizeMV,
      finalizePL, finalizeAvailable, lookupPrice, List.lookup, pymax, tBuy1000,
      tBuy500, oBuy100, exKey, key_append_ex]

/-- Claim C8, counterexample to the claim as stated: the composite keys of
(stock `A_B`, account `C`, strategy `D`) and (stock `A`, account `B`,
strategy `C_D`) collide on the string `A_B_C_D`, so the second trade's
price lookup under stock `A` refreshes the position whose own stock code
`A_B` is absent from the price map — `current_price = 5 ≠ 0`. -/
theorem calculate_price_collision_counterexample :
    (calculate [tColl1, tColl2] [] [("A", 5)]).lookup "A_B_C_D" = some c8BadPos
    ∧ c8BadPos.stock_code = "A_B"
    ∧ lookupPrice [("A", 5)] "A_B" = none
    ∧ c8BadPos.current_price = 5 := by
  refine ⟨rfl, ?_, by decide, ?_⟩ <;>
    norm_num +decide [c8BadPos, calculate, foldTrades, foldOrders, setPos,
      upsert, applyTrade, applyTradeDir, applyTradePrice, tradeKey, mkKey,
      tradeStrategy, tradeDirection, mkPosition, finalizePos, finalizeMV,
      finalizePL, finalizeAvailable, lookupPrice, List.lookup, pymax,
      tColl1, tColl2, key_append_coll1, key_append_coll2, beq_collision_stock]

/-- Claim C8, witness for the amended theorem at a concrete collision-free
input. -/
theorem calculate_market_value_pl_witness :
    (calculate [tBuy1000, tBuy500] [oBuy100] [("600519", 12)]).lookup exKey
        = some c7Pos
    ∧ c7Pos.market_value = (c7Pos.total_volume : ℚ) * c7Pos.current_price
    ∧ c7Pos.profit_loss
        = (c7Pos.current_price - c7Pos.avg_cost) * (c7Pos.total_volume : ℚ)
    ∧ c7Pos.profit_loss_ratio
        = c7Pos.profit_loss / (c7Pos.avg_cost * (c7Pos.total_volume : ℚ))
    ∧ c7Pos.market_value = 18000 := by
  have h : (calculate [tBuy1000, tBuy500] [oBuy100] [("600519", 12)]).lookup
      exKey = some c7Pos := rfl
  have hc := calculate_market_value_pl [tBuy1000, tBuy500] [oBuy100]
    [("600519", 12)] exKey c7Pos h
  have hguard : 0 < c7Pos.total_volume ∧ 0 < c7Pos.avg_cost := by
    constructor <;>
      norm_num +decide [c7Pos, calculate, foldTrades, foldOrders, setPos,
        upsert, applyTrade, applyTradeDir, applyTradePrice, tradeKey, mkKey,
        tradeStrategy, tradeDirection, orderKey, orderStrategy, orderDirection,
        parseVolume_100, applyOrder, mkPosition, finalizePos, finalizeMV,
        finalizePL, finalizeAvailable, lookupPrice, List.lookup, pymax,
        tBuy1000, tBuy500, oBuy100, exKey, key_append_ex]
  have hpl := hc.2.2 hguard
  refine ⟨h, hc.1, hpl.1, hpl.2, ?_⟩
  norm_num +decide [c7Pos, calculate, foldTrades, foldOrders, setPos, upsert,
    applyTrade, applyTradeDir, applyTradePrice, tradeKey, mkKey,
    tradeStrategy, tradeDirection, orderKey, orderStrategy, orderDirection,
    parseVolume_100, applyOrder, mkPosition, finalizePos, finalizeMV,
    finalizePL, finalizeAvailable, lookupPrice, List.lookup, pymax, tBuy1000,
    tBuy500, oBuy100, exKey, key_append_ex]

end YXT
